import Mathlib

/-!
Shallow embedding of the technical-indicator engine of `src/app.py`
(functions `calculate_sma`, `calculate_rsi`, `calculate_macd`,
`add_technical_indicators_to_df`) and proofs of the specification claims.

A pandas float series is embedded as `List FVal`, where `FVal` carries exact
rationals plus the IEEE-754 special values `inf`, `-inf` and `NaN` that the
pandas code can produce (division by zero, missing values).  Rounding of
binary floating point is not modelled: all numeric values are exact
rationals.  A pandas `DataFrame` is embedded as a row count plus an ordered
association list of named columns, all sharing one date index of that
length; since every series handled by the program is derived from a column
of the same frame, index alignment is positional, and aligning a series of
the wrong length (in the program: only the empty series returned by a
failed calculator) yields an all-NaN column, as pandas alignment does.
-/

/-- A pandas/NumPy float64 cell value: an exact rational, `+inf`, `-inf`,
or NaN (which is also the missing-value marker of pandas). -/
inductive FVal where
  | num (q : ℚ)
  | inf
  | ninf
  | nan
deriving DecidableEq

namespace FVal

/-- True exactly on the NaN value (pandas missing-value test). -/
def isNan : FVal → Bool
  | nan => true
  | _ => false

/-- IEEE-754 negation. -/
def neg : FVal → FVal
  | num q => num (-q)
  | inf => ninf
  | ninf => inf
  | nan => nan

/-- IEEE-754 addition (no signed zero; rationals are exact). -/
def add : FVal → FVal → FVal
  | nan, _ => nan
  | num _, nan => nan
  | inf, nan => nan
  | ninf, nan => nan
  | num a, num b => num (a + b)
  | num _, inf => inf
  | num _, ninf => ninf
  | inf, num _ => inf
  | ninf, num _ => ninf
  | inf, inf => inf
  | ninf, ninf => ninf
  | inf, ninf => nan
  | ninf, inf => nan

/-- IEEE-754 subtraction, as addition of the negation. -/
def sub (a b : FVal) : FVal := add a (neg b)

/-- IEEE-754 multiplication (`0 * inf = NaN`). -/
def mul : FVal → FVal → FVal
  | nan, _ => nan
  | num _, nan => nan
  | inf, nan => nan
  | ninf, nan => nan
  | num a, num b => num (a * b)
  | num a, inf => if 0 < a then inf else if a < 0 then ninf else nan
  | num a, ninf => if 0 < a then ninf else if a < 0 then inf else nan
  | inf, num b => if 0 < b then inf else if b < 0 then ninf else nan
  | ninf, num b => if 0 < b then ninf else if b < 0 then inf else nan
  | inf, inf => inf
  | inf, ninf => ninf
  | ninf, inf => ninf
  | ninf, ninf => inf

/-- IEEE-754/NumPy division: `x/0` is `±inf` for `x ≠ 0`, `0/0` is NaN
(this is what `gain / loss` does in `calculate_rsi`). -/
def div : FVal → FVal → FVal
  | nan, _ => nan
  | num _, nan => nan
  | inf, nan => nan
  | ninf, nan => nan
  | num a, num b =>
      if b = 0 then (if 0 < a then inf else if a < 0 then ninf else nan)
      else num (a / b)
  | num _, inf => num 0
  | num _, ninf => num 0
  | inf, num b => if 0 ≤ b then inf else ninf
  | ninf, num b => if 0 ≤ b then ninf else inf
  | inf, inf => nan
  | inf, ninf => nan
  | ninf, inf => nan
  | ninf, ninf => nan

/-- IEEE-754 strict less-than; any comparison with NaN is false (this is
the semantics of the masks `delta > 0` and `delta < 0` in the source). -/
def lt : FVal → FVal → Bool
  | nan, _ => false
  | num _, nan => false
  | inf, nan => false
  | ninf, nan => false
  | num a, num b => decide (a < b)
  | num _, inf => true
  | num _, ninf => false
  | inf, _ => false
  | ninf, num _ => true
  | ninf, inf => true
  | ninf, ninf => false

end FVal

/-- Entry of a series at position `t`; out-of-range reads do not occur in
the program, NaN is used as the default. -/
def getF (s : List FVal) (t : ℕ) : FVal := s.getD t FVal.nan

/-- `Series.diff()` of pandas: first difference, NaN at position 0. -/
def seriesDiff (s : List FVal) : List FVal :=
  (List.range s.length).map fun t =>
    if t = 0 then FVal.nan else FVal.sub (getF s t) (getF s (t - 1))

/-- `Series.rolling(window=w, min_periods=m).mean()` of pandas: at each
position the window is the trailing `w` entries (fewer at the start); the
mean is over the non-NaN entries of the window if at least `m` of them
exist, else NaN. -/
def rolling_mean (s : List FVal) (w m : ℕ) : List FVal :=
  (List.range s.length).map fun t =>
    let obs := ((s.take (t + 1)).drop (t + 1 - w)).filter (fun v => !v.isNan)
    if m ≤ obs.length then
      FVal.div (obs.foldr FVal.add (FVal.num 0)) (FVal.num obs.length)
    else FVal.nan

/-- `Series.ewm(span=span, adjust=False).mean()` recurrence after the first
entry: `y = α·x + (1-α)·prev`.  The NaN-skipping of pandas `ewm` is not
modelled (NaN contaminates the tail); every series the program feeds to
`ewm` is NaN-free, where the two semantics agree. -/
def ewmGo (a : ℚ) (prev : FVal) : List FVal → List FVal
  | [] => []
  | x :: xs =>
      let y := FVal.add (FVal.mul (FVal.num a) x) (FVal.mul (FVal.num (1 - a)) prev)
      y :: ewmGo a y xs

/-- `Series.ewm(span=span, adjust=False).mean()` of pandas: `y[0] = x[0]`,
then the recurrence with `α = 2/(span+1)`. -/
def ewm (s : List FVal) (span : ℕ) : List FVal :=
  match s with
  | [] => []
  | x :: xs => x :: ewmGo (2 / ((span : ℚ) + 1)) x xs

/-- `calculate_sma` of `src/app.py`: guard `window <= 0` (the `series is
None` branch cannot arise here, the column read always yields a series),
then `series.rolling(window=window, min_periods=1).mean()`. -/
def calculate_sma (series : List FVal) (window : ℤ) : List FVal :=
  if window ≤ 0 then []
  else rolling_mean series window.toNat 1

/-- The series `delta.where(delta > 0, 0)` of `calculate_rsi`, with
`delta = series.diff()`: entries where the mask is false (including the
NaN at position 0) are replaced by 0. -/
def rsi_gain_series (s : List FVal) : List FVal :=
  (seriesDiff s).map fun d => if FVal.lt (FVal.num 0) d then d else FVal.num 0

/-- The series `-delta.where(delta < 0, 0)` of `calculate_rsi`. -/
def rsi_loss_series (s : List FVal) : List FVal :=
  ((seriesDiff s).map fun d => if FVal.lt d (FVal.num 0) then d else FVal.num 0).map FVal.neg

/-- The `gain` variable of `calculate_rsi`: strict rolling mean (pandas
default `min_periods = window`). -/
def rsi_avg_gain (s : List FVal) (w : ℕ) : List FVal :=
  rolling_mean (rsi_gain_series s) w w

/-- The `loss` variable of `calculate_rsi`. -/
def rsi_avg_loss (s : List FVal) (w : ℕ) : List FVal :=
  rolling_mean (rsi_loss_series s) w w

/-- `calculate_rsi` of `src/app.py`: guard (non-positive window or series
shorter than the window) returns the empty series, else
`rs = gain/loss` and `rsi = 100 - (100 / (1 + rs))` elementwise. -/
def calculate_rsi (series : List FVal) (window : ℤ) : List FVal :=
  if window ≤ 0 ∨ (series.length : ℤ) < window then []
  else
    let gain := rsi_avg_gain series window.toNat
    let loss := rsi_avg_loss series window.toNat
    let rs := List.zipWith FVal.div gain loss
    rs.map fun r => FVal.sub (FVal.num 100) (FVal.div (FVal.num 100) (FVal.add (FVal.num 1) r))

/-- The parameter part `f'{fast}_{slow}_{signal}'` shared by the three
MACD column names (the UI builds the same string as
`macd_col_base_name`). -/
def macdParams (f s g : ℤ) : String :=
  toString f ++ "_" ++ toString s ++ "_" ++ toString g

/-- Column name `f'MACD_{fast}_{slow}_{signal}'` of `calculate_macd`. -/
def macdLineName (f s g : ℤ) : String :=
  "MACD_" ++ macdParams f s g

/-- Column name `f'MACDs_{fast}_{slow}_{signal}'` of `calculate_macd`. -/
def macdSignalName (f s g : ℤ) : String :=
  "MACDs_" ++ macdParams f s g

/-- Column name `f'MACDh_{fast}_{slow}_{signal}'` of `calculate_macd`. -/
def macdHistName (f s g : ℤ) : String :=
  "MACDh_" ++ macdParams f s g

/-- `calculate_macd` of `src/app.py`: on a configuration error it returns
a DataFrame with the three named columns and no rows; otherwise the fast
and slow EWMAs, their difference, the signal EWMA of the difference, and
the histogram.  A 3-column DataFrame is embedded as the ordered list of
its (name, column) pairs, matching the dict-literal insertion order. -/
def calculate_macd (series : List FVal) (fast_period slow_period signal_period : ℤ) :
    List (String × List FVal) :=
  if fast_period ≤ 0 ∨ slow_period ≤ 0 ∨ signal_period ≤ 0 ∨ slow_period ≤ fast_period then
    [(macdLineName fast_period slow_period signal_period, []),
     (macdSignalName fast_period slow_period signal_period, []),
     (macdHistName fast_period slow_period signal_period, [])]
  else
    let ema_fast := ewm series fast_period.toNat
    let ema_slow := ewm series slow_period.toNat
    let macd_line := List.zipWith FVal.sub ema_fast ema_slow
    let macd_signal_line := ewm macd_line signal_period.toNat
    let macd_histogram := List.zipWith FVal.sub macd_line macd_signal_line
    [(macdLineName fast_period slow_period signal_period, macd_line),
     (macdSignalName fast_period slow_period signal_period, macd_signal_line),
     (macdHistName fast_period slow_period signal_period, macd_histogram)]

/-- A pandas DataFrame: a shared date index of length `nrows` and an
ordered list of named columns over that index. -/
structure DataFrame where
  nrows : ℕ
  cols : List (String × List FVal)
deriving DecidableEq

/-- The empty DataFrame. -/
def DataFrame.empty : DataFrame := ⟨0, []⟩

/-- Index-alignment of a series being stored into a frame with `n` rows:
a series with the frame's own index is kept; any other (in this program
only the empty series of a failed calculator) aligns to all-NaN, as in
pandas. -/
def alignCol (n : ℕ) (s : List FVal) : List FVal :=
  if s.length = n then s else List.replicate n FVal.nan

/-- Lookup of a named column in the column list. -/
def lookupCol : List (String × List FVal) → String → Option (List FVal)
  | [], _ => none
  | c :: cs, n => if c.1 = n then some c.2 else lookupCol cs n

/-- Column-list update of `df[name] = value`: replace the column if the
name exists, else append it at the end (pandas `__setitem__`). -/
def setCols : List (String × List FVal) → String → List FVal → List (String × List FVal)
  | [], n, v => [(n, v)]
  | c :: cs, n, v => if c.1 = n then (n, v) :: cs else c :: setCols cs n v

/-- `df[name]` (the program only reads columns that are present). -/
def DataFrame.getCol (df : DataFrame) (name : String) : List FVal :=
  (lookupCol df.cols name).getD []

/-- `df[name] = value` with pandas index alignment. -/
def DataFrame.setCol (df : DataFrame) (name : String) (v : List FVal) : DataFrame :=
  ⟨df.nrows, setCols df.cols name (alignCol df.nrows v)⟩

/-- `df.join(other)` for the non-overlapping column names the program
joins: left join on the shared index appends each column of `other`,
aligned to the frame's index. -/
def DataFrame.join (df : DataFrame) (cols : List (String × List FVal)) : DataFrame :=
  ⟨df.nrows, df.cols ++ cols.map fun c => (c.1, alignCol df.nrows c.2)⟩

/-- The SMA column name `f'SMA_{val}'` of `add_technical_indicators_to_df`. -/
def smaColName (w : ℤ) : String := "SMA_" ++ toString w

/-- `add_technical_indicators_to_df` of `src/app.py` as a pure function on
the DataFrame value: `df_ta = df.copy()` then the four conditional column
additions (each reading `df_ta["Close"]` at that point). -/
def add_technical_indicators_to_df (df : DataFrame)
    (sma_short_visible : Bool) (sma_short_val : ℤ)
    (sma_long_visible : Bool) (sma_long_val : ℤ)
    (rsi_visible : Bool) (rsi_window_val : ℤ)
    (macd_visible : Bool) (macd_fast_val macd_slow_val macd_signal_val : ℤ) : DataFrame :=
  let df1 := df
  let df2 := if sma_short_visible then
      df1.setCol (smaColName sma_short_val) (calculate_sma (df1.getCol "Close") sma_short_val)
    else df1
  let df3 := if sma_long_visible then
      df2.setCol (smaColName sma_long_val) (calculate_sma (df2.getCol "Close") sma_long_val)
    else df2
  let df4 := if rsi_visible then
      df3.setCol "RSI" (calculate_rsi (df3.getCol "Close") rsi_window_val)
    else df3
  let df5 := if macd_visible then
      df4.join (calculate_macd (df4.getCol "Close") macd_fast_val macd_slow_val macd_signal_val)
    else df4
  df5

/-- Heap of DataFrame objects: Python references are positions in the
heap, so that the aliasing between the caller's `df` and the local
`df_ta` is explicit. -/
def heapGet (h : List DataFrame) (r : ℕ) : DataFrame := h.getD r DataFrame.empty

/-- `df.copy()`: allocate a fresh object with the same value and return
its reference. -/
def heapCopy (h : List DataFrame) (r : ℕ) : List DataFrame × ℕ :=
  (h ++ [heapGet h r], h.length)

/-- In-place `df[name] = value` on the object at reference `r`. -/
def heapSetCol (h : List DataFrame) (r : ℕ) (name : String) (v : List FVal) : List DataFrame :=
  h.set r ((heapGet h r).setCol name v)

/-- In-place rebinding of `df_ta` to `df_ta.join(...)` (the join builds a
new frame; rebinding the only reference is modelled as updating it). -/
def heapJoin (h : List DataFrame) (r : ℕ) (cols : List (String × List FVal)) : List DataFrame :=
  h.set r ((heapGet h r).join cols)

/-- `add_technical_indicators_to_df` with the Python object model made
explicit: the caller passes a reference `df` into the heap, the body
copies it once and mutates only the copy, and the reference of the copy
is returned. -/
def add_technical_indicators_heap (h0 : List DataFrame) (df : ℕ)
    (sma_short_visible : Bool) (sma_short_val : ℤ)
    (sma_long_visible : Bool) (sma_long_val : ℤ)
    (rsi_visible : Bool) (rsi_window_val : ℤ)
    (macd_visible : Bool) (macd_fast_val macd_slow_val macd_signal_val : ℤ) :
    List DataFrame × ℕ :=
  let p := heapCopy h0 df
  let h1 := p.1
  let r := p.2
  let h2 := if sma_short_visible then
      heapSetCol h1 r (smaColName sma_short_val)
        (calculate_sma ((heapGet h1 r).getCol "Close") sma_short_val)
    else h1
  let h3 := if sma_long_visible then
      heapSetCol h2 r (smaColName sma_long_val)
        (calculate_sma ((heapGet h2 r).getCol "Close") sma_long_val)
    else h2
  let h4 := if rsi_visible then
      heapSetCol h3 r "RSI" (calculate_rsi ((heapGet h3 r).getCol "Close") rsi_window_val)
    else h3
  let h5 := if macd_visible then
      heapJoin h4 r
        (calculate_macd ((heapGet h4 r).getCol "Close") macd_fast_val macd_slow_val macd_signal_val)
    else h4
  (h5, r)

/-- The raw OHLCV price frame handed to the engine by the data provider. -/
def mkPriceDF (o hi lo c v : List FVal) (n : ℕ) : DataFrame :=
  ⟨n, [("Open", o), ("High", hi), ("Low", lo), ("Close", c), ("Volume", v)]⟩

/-! ## Generic list-access helper lemmas -/

/-- Entry of a mapped list. -/
theorem getD_map_num (qs : List ℚ) (t : ℕ) (ht : t < qs.length) :
    (qs.map FVal.num).getD t FVal.nan = FVal.num (qs.getD t 0) := by
  rw [List.getD_eq_getElem?_getD, List.getD_eq_getElem?_getD]
  rw [List.getElem?_eq_getElem (by simpa using ht), List.getElem?_eq_getElem ht]
  simp

/-- Entry of a map over a range. -/
theorem getD_map_range {α : Type} (f : ℕ → α) (n t : ℕ) (ht : t < n) (d : α) :
    ((List.range n).map f).getD t d = f t := by
  rw [List.getD_eq_getElem?_getD, List.getElem?_eq_getElem (by simpa using ht)]
  simp

/-- Entry of a zipWith of two lists. -/
theorem getD_zipWith (f : FVal → FVal → FVal) (a b : List FVal) (t : ℕ)
    (ha : t < a.length) (hb : t < b.length) :
    (List.zipWith f a b).getD t FVal.nan =
      f (a.getD t FVal.nan) (b.getD t FVal.nan) := by
  rw [List.getD_eq_getElem?_getD, List.getD_eq_getElem?_getD, List.getD_eq_getElem?_getD]
  rw [List.getElem?_eq_getElem (by simp [List.length_zipWith]; omega),
      List.getElem?_eq_getElem ha, List.getElem?_eq_getElem hb]
  simp

/-- Entry of a map over a list of values. -/
theorem getD_map_fval (f : FVal → FVal) (a : List FVal) (t : ℕ) (ha : t < a.length) :
    (a.map f).getD t FVal.nan = f (a.getD t FVal.nan) := by
  rw [List.getD_eq_getElem?_getD, List.getD_eq_getElem?_getD]
  rw [List.getElem?_eq_getElem (by simpa using ha), List.getElem?_eq_getElem ha]
  simp

/-! ## Rolling mean on NaN-free series -/

/-- The rolling mean has the length of its input. -/
theorem length_rolling_mean (s : List FVal) (w m : ℕ) :
    (rolling_mean s w m).length = s.length := by
  simp [rolling_mean]

/-- A list of embedded rationals has no NaN entry to filter out. -/
theorem filter_isNan_map_num (l : List ℚ) :
    (l.map FVal.num).filter (fun v => !v.isNan) = l.map FVal.num := by
  induction l with
  | nil => rfl
  | cons x xs ih => simp [List.filter_cons, FVal.isNan, ih]

/-- Folding IEEE addition over embedded rationals is the rational sum. -/
theorem foldr_add_map_num (l : List ℚ) :
    List.foldr FVal.add (FVal.num 0) (l.map FVal.num) = FVal.num l.sum := by
  induction l with
  | nil => rfl
  | cons x xs ih => simp [List.foldr, ih, FVal.add]

/-- Entry `t` of the rolling mean of an embedded rational series: the mean
over the trailing `min (t+1) w` entries if those number at least `m`,
else NaN. -/
theorem rolling_mean_map_num (qs : List ℚ) (w m t : ℕ) (hm1 : 1 ≤ m) (ht : t < qs.length) :
    (rolling_mean (qs.map FVal.num) w m).getD t FVal.nan =
      if m ≤ min (t + 1) w then
        FVal.num (((qs.take (t + 1)).drop (t + 1 - w)).sum / (min (t + 1) w : ℚ))
      else FVal.nan := by
  have hlen : ((qs.take (t + 1)).drop (t + 1 - w)).length = min (t + 1) w := by
    simp only [List.length_drop, List.length_take]
    omega
  rw [rolling_mean, getD_map_range _ _ _ (by simpa using ht)]
  simp only [← List.map_take, ← List.map_drop, filter_isNan_map_num]
  rw [foldr_add_map_num]
  simp only [List.length_map, hlen]
  by_cases hm : m ≤ min (t + 1) w
  · rw [if_pos hm, if_pos hm]
    have hpos : (0 : ℚ) < (min (t + 1) w : ℚ) := by
      have : 1 ≤ min (t + 1) w := by omega
      exact_mod_cast Nat.lt_of_lt_of_le Nat.zero_lt_one this
    simp [FVal.div, ne_of_gt hpos]
  · rw [if_neg hm, if_neg hm]

/-! ## The gain and loss series of the RSI on an embedded rational series -/

/-- Rational-level value of the gain series: 0 at position 0 (the NaN of
`diff` fails the mask `delta > 0` and is replaced by 0), else the positive
part of the price change. -/
def gainQ (qs : List ℚ) : List ℚ :=
  (List.range qs.length).map fun t =>
    if t = 0 then 0 else max (qs.getD t 0 - qs.getD (t - 1) 0) 0

/-- Rational-level value of the loss series: 0 at position 0, else the
positive part of the negated price change. -/
def lossQ (qs : List ℚ) : List ℚ :=
  (List.range qs.length).map fun t =>
    if t = 0 then 0 else max (qs.getD (t - 1) 0 - qs.getD t 0) 0

/-- The gain series of the RSI of an embedded rational close series is the
embedding of `gainQ`; in particular it has no NaN entry. -/
theorem rsi_gain_series_map_num (qs : List ℚ) :
    rsi_gain_series (qs.map FVal.num) = (gainQ qs).map FVal.num := by
  unfold rsi_gain_series seriesDiff gainQ
  simp only [List.length_map, List.map_map]
  refine List.map_congr_left fun t hmem => ?_
  have ht : t < qs.length := List.mem_range.mp hmem
  by_cases h0 : t = 0
  · simp [h0, FVal.lt]
  · have ht1 : t - 1 < qs.length := by omega
    simp only [Function.comp, if_neg h0, getF, getD_map_num qs t ht, getD_map_num qs (t - 1) ht1]
    have hsub : FVal.sub (FVal.num (qs.getD t 0)) (FVal.num (qs.getD (t - 1) 0)) =
        FVal.num (qs.getD t 0 - qs.getD (t - 1) 0) := by
      simp [FVal.sub, FVal.neg, FVal.add, sub_eq_add_neg]
    rw [hsub]
    rcases le_or_lt (qs.getD t 0 - qs.getD (t - 1) 0) 0 with hle | hpos
    · have hmask : FVal.lt (FVal.num 0) (FVal.num (qs.getD t 0 - qs.getD (t - 1) 0)) = false :=
        decide_eq_false (not_lt.mpr hle)
      rw [hmask, max_eq_right hle]
      simp
    · have hmask : FVal.lt (FVal.num 0) (FVal.num (qs.getD t 0 - qs.getD (t - 1) 0)) = true :=
        decide_eq_true hpos
      rw [hmask, max_eq_left (le_of_lt hpos)]
      simp

/-- The loss series of the RSI of an embedded rational close series is the
embedding of `lossQ`; in particular it has no NaN entry. -/
theorem rsi_loss_series_map_num (qs : List ℚ) :
    rsi_loss_series (qs.map FVal.num) = (lossQ qs).map FVal.num := by
  unfold rsi_loss_series seriesDiff lossQ
  simp only [List.length_map, List.map_map]
  refine List.map_congr_left fun t hmem => ?_
  have ht : t < qs.length := List.mem_range.mp hmem
  by_cases h0 : t = 0
  · simp [h0, FVal.lt, FVal.neg]
  · have ht1 : t - 1 < qs.length := by omega
    simp only [Function.comp, if_neg h0, getF, getD_map_num qs t ht, getD_map_num qs (t - 1) ht1]
    have hsub : FVal.sub (FVal.num (qs.getD t 0)) (FVal.num (qs.getD (t - 1) 0)) =
        FVal.num (qs.getD t 0 - qs.getD (t - 1) 0) := by
      simp [FVal.sub, FVal.neg, FVal.add, sub_eq_add_neg]
    rw [hsub]
    rcases le_or_lt (0 : ℚ) (qs.getD t 0 - qs.getD (t - 1) 0) with hle | hneg
    · have hmask : FVal.lt (FVal.num (qs.getD t 0 - qs.getD (t - 1) 0)) (FVal.num 0) = false :=
        decide_eq_false (not_lt.mpr hle)
      have h1 : qs.getD (t - 1) 0 - qs.getD t 0 ≤ 0 := by linarith
      rw [hmask, max_eq_right h1]
      simp [FVal.neg]
    · have hmask : FVal.lt (FVal.num (qs.getD t 0 - qs.getD (t - 1) 0)) (FVal.num 0) = true :=
        decide_eq_true hneg
      have h1 : 0 ≤ qs.getD (t - 1) 0 - qs.getD t 0 := by linarith
      rw [hmask, max_eq_left h1,
        show qs.getD (t - 1) 0 - qs.getD t 0 = -(qs.getD t 0 - qs.getD (t - 1) 0) by ring]
      simp [FVal.neg]

/-- Every entry of `gainQ` is nonnegative. -/
theorem gainQ_nonneg (qs : List ℚ) : ∀ x ∈ gainQ qs, 0 ≤ x := by
  intro x hx
  obtain ⟨t, _, rfl⟩ := List.mem_map.mp hx
  by_cases h0 : t = 0 <;> simp [h0, le_max_right]

/-- Every entry of `lossQ` is nonnegative. -/
theorem lossQ_nonneg (qs : List ℚ) : ∀ x ∈ lossQ qs, 0 ≤ x := by
  intro x hx
  obtain ⟨t, _, rfl⟩ := List.mem_map.mp hx
  by_cases h0 : t = 0 <;> simp [h0, le_max_right]

/-- Length of the gain series. -/
theorem length_gainQ (qs : List ℚ) : (gainQ qs).length = qs.length := by
  simp [gainQ]

/-- Length of the loss series. -/
theorem length_lossQ (qs : List ℚ) : (lossQ qs).length = qs.length := by
  simp [lossQ]

/-- Length of the raw gain series. -/
theorem length_rsi_gain_series (s : List FVal) : (rsi_gain_series s).length = s.length := by
  simp [rsi_gain_series, seriesDiff]

/-- Length of the raw loss series. -/
theorem length_rsi_loss_series (s : List FVal) : (rsi_loss_series s).length = s.length := by
  simp [rsi_loss_series, seriesDiff]

/-- Entry `t` of the average gain of an embedded rational close series:
NaN until `window` observations exist (strict policy), then the mean of
the trailing `window` gains. -/
theorem rsi_avg_gain_entry (qs : List ℚ) (w t : ℕ) (hw : 1 ≤ w) (ht : t < qs.length) :
    (rsi_avg_gain (qs.map FVal.num) w).getD t FVal.nan =
      if w ≤ t + 1 then
        FVal.num ((((gainQ qs).take (t + 1)).drop (t + 1 - w)).sum / (w : ℚ))
      else FVal.nan := by
  rw [rsi_avg_gain, rsi_gain_series_map_num]
  rw [rolling_mean_map_num (gainQ qs) w w t hw (by rw [length_gainQ]; exact ht)]
  by_cases h : w ≤ t + 1
  · rw [if_pos (by omega), if_pos h]
    have hmin : min ((t : ℚ) + 1) (w : ℚ) = (w : ℚ) := min_eq_right (by exact_mod_cast h)
    rw [hmin]
  · rw [if_neg (by omega), if_neg h]

/-- Entry `t` of the average loss of an embedded rational close series. -/
theorem rsi_avg_loss_entry (qs : List ℚ) (w t : ℕ) (hw : 1 ≤ w) (ht : t < qs.length) :
    (rsi_avg_loss (qs.map FVal.num) w).getD t FVal.nan =
      if w ≤ t + 1 then
        FVal.num ((((lossQ qs).take (t + 1)).drop (t + 1 - w)).sum / (w : ℚ))
      else FVal.nan := by
  rw [rsi_avg_loss, rsi_loss_series_map_num]
  rw [rolling_mean_map_num (lossQ qs) w w t hw (by rw [length_lossQ]; exact ht)]
  by_cases h : w ≤ t + 1
  · rw [if_pos (by omega), if_pos h]
    have hmin : min ((t : ℚ) + 1) (w : ℚ) = (w : ℚ) := min_eq_right (by exact_mod_cast h)
    rw [hmin]
  · rw [if_neg (by omega), if_neg h]

/-- The sum of a contiguous slice of a list of nonnegative rationals is
nonnegative. -/
theorem slice_sum_nonneg (l : List ℚ) (hpos : ∀ x ∈ l, 0 ≤ x) (a b : ℕ) :
    0 ≤ ((l.take a).drop b).sum :=
  List.sum_nonneg fun x hx =>
    hpos x (List.mem_of_mem_take (List.mem_of_mem_drop hx))

/-- Length of the RSI output when the guard passes. -/
theorem length_calculate_rsi (qs : List ℚ) (window : ℤ) (hw : 0 < window)
    (hlen : window ≤ (qs.length : ℤ)) :
    (calculate_rsi (qs.map FVal.num) window).length = qs.length := by
  rw [calculate_rsi, if_neg]
  · simp [rsi_avg_gain, rsi_avg_loss, length_rolling_mean,
      length_rsi_gain_series, length_rsi_loss_series]
  · push_neg
    refine ⟨hw, ?_⟩
    simpa using hlen

/-- Entry `t` of the RSI of an embedded rational close series, written in
terms of the average gain and average loss at `t`. -/
theorem calculate_rsi_entry (qs : List ℚ) (window : ℤ) (hw : 0 < window)
    (hlen : window ≤ (qs.length : ℤ)) (t : ℕ) (ht : t < qs.length) :
    (calculate_rsi (qs.map FVal.num) window).getD t FVal.nan =
      FVal.sub (FVal.num 100) (FVal.div (FVal.num 100) (FVal.add (FVal.num 1)
        (FVal.div ((rsi_avg_gain (qs.map FVal.num) window.toNat).getD t FVal.nan)
          ((rsi_avg_loss (qs.map FVal.num) window.toNat).getD t FVal.nan)))) := by
  have hg : (rsi_avg_gain (qs.map FVal.num) window.toNat).length = qs.length := by
    simp [rsi_avg_gain, length_rolling_mean, length_rsi_gain_series]
  have hl : (rsi_avg_loss (qs.map FVal.num) window.toNat).length = qs.length := by
    simp [rsi_avg_loss, length_rolling_mean, length_rsi_loss_series]
  rw [calculate_rsi, if_neg]
  · rw [getD_map_fval _ _ _ (by rw [List.length_zipWith, hg, hl]; omega)]
    rw [getD_zipWith _ _ _ _ (by omega) (by omega)]
  · push_neg
    refine ⟨hw, ?_⟩
    simpa using hlen

/-- The average gain at a position inside the series is NaN or a
nonnegative rational. -/
theorem rsi_avg_gain_shape (qs : List ℚ) (w t : ℕ) (hw : 1 ≤ w) (ht : t < qs.length) :
    (rsi_avg_gain (qs.map FVal.num) w).getD t FVal.nan = FVal.nan ∨
    ∃ g, (rsi_avg_gain (qs.map FVal.num) w).getD t FVal.nan = FVal.num g ∧ 0 ≤ g := by
  rw [rsi_avg_gain_entry qs w t hw ht]
  by_cases h : w ≤ t + 1
  · refine Or.inr ⟨_, if_pos h, ?_⟩
    exact div_nonneg (slice_sum_nonneg _ (gainQ_nonneg qs) _ _) (by positivity)
  · exact Or.inl (if_neg h)

/-- The average loss at a position inside the series is NaN or a
nonnegative rational. -/
theorem rsi_avg_loss_shape (qs : List ℚ) (w t : ℕ) (hw : 1 ≤ w) (ht : t < qs.length) :
    (rsi_avg_loss (qs.map FVal.num) w).getD t FVal.nan = FVal.nan ∨
    ∃ l, (rsi_avg_loss (qs.map FVal.num) w).getD t FVal.nan = FVal.num l ∧ 0 ≤ l := by
  rw [rsi_avg_loss_entry qs w t hw ht]
  by_cases h : w ≤ t + 1
  · refine Or.inr ⟨_, if_pos h, ?_⟩
    exact div_nonneg (slice_sum_nonneg _ (lossQ_nonneg qs) _ _) (by positivity)
  · exact Or.inl (if_neg h)

/-- The RSI formula evaluated at a NaN relative strength is NaN. -/
theorem rsi_of_nan :
    FVal.sub (FVal.num 100) (FVal.div (FVal.num 100) (FVal.add (FVal.num 1) FVal.nan)) =
      FVal.nan := rfl

/-- The RSI formula evaluated at an infinite relative strength saturates
at 100. -/
theorem rsi_of_inf :
    FVal.sub (FVal.num 100) (FVal.div (FVal.num 100) (FVal.add (FVal.num 1) FVal.inf)) =
      FVal.num 100 := by
  simp [FVal.sub, FVal.add, FVal.div, FVal.neg]

/-- The RSI formula evaluated at a finite nonnegative relative strength
`r` is the rational `100 - 100/(1+r)`. -/
theorem rsi_of_num (r : ℚ) (hr : 0 ≤ r) :
    FVal.sub (FVal.num 100) (FVal.div (FVal.num 100) (FVal.add (FVal.num 1) (FVal.num r))) =
      FVal.num (100 - 100 / (1 + r)) := by
  have h1 : (1 : ℚ) + r ≠ 0 := by linarith
  simp [FVal.sub, FVal.add, FVal.div, FVal.neg, h1, sub_eq_add_neg]

/-- C1 (amended): for every close series of length at least `window` and
positive `window`, the RSI output is undefined (NaN) at the first
`window - 1` positions — the strict rolling mean leaves them undefined —
while the SMA of the same window, under its relaxed policy, is defined at
every position; both outputs have the length of the input.  (The claim as
frozen asserts undefinedness at the first `window` positions; the
counterexample shows the RSI is already defined at position
`window - 1`.) -/
theorem c1_rsi_strict_first_entries_undefined_sma_defined (qs : List ℚ) (w : ℤ)
    (hw : 0 < w) (hlen : w ≤ (qs.length : ℤ)) :
    (∀ t : ℕ, (t : ℤ) < w - 1 →
      (calculate_rsi (qs.map FVal.num) w).getD t FVal.nan = FVal.nan) ∧
    (calculate_rsi (qs.map FVal.num) w).length = qs.length ∧
    (calculate_sma (qs.map FVal.num) w).length = qs.length ∧
    (∀ t : ℕ, t < qs.length →
      ∃ q, (calculate_sma (qs.map FVal.num) w).getD t FVal.nan = FVal.num q) := by
  refine ⟨?_, length_calculate_rsi qs w hw hlen, ?_, ?_⟩
  · intro t htw
    have ht : t < qs.length := by omega
    rw [calculate_rsi_entry qs w hw hlen t ht]
    rw [rsi_avg_gain_entry qs w.toNat t (by omega) ht, if_neg (by omega)]
    rfl
  · rw [calculate_sma, if_neg (by omega), length_rolling_mean]
    simp
  · intro t ht
    rw [calculate_sma, if_neg (by omega)]
    rw [rolling_mean_map_num qs w.toNat 1 t le_rfl ht, if_pos (by omega)]
    exact ⟨_, rfl⟩

/-- C1, counterexample to the claim as frozen: on the close series
`[1, 2]` with `window = 2` (length equal to the window), the RSI at
position `window - 1 = 1` is defined (it equals 100), so the first
`window` positions are not all undefined. -/
theorem c1_counterexample_rsi_defined_at_window_sub_one :
    (calculate_rsi (List.map FVal.num [(1 : ℚ), 2]) 2).getD 1 FVal.nan = FVal.num 100 ∧
    FVal.num 100 ≠ FVal.nan := by
  constructor
  · norm_num [calculate_rsi, rsi_avg_gain, rsi_avg_loss, rolling_mean, rsi_gain_series,
      rsi_loss_series, seriesDiff, getF, FVal.lt, FVal.sub, FVal.add, FVal.div, FVal.neg,
      FVal.isNan, List.range_succ]
  · decide

/-- C1 witness: the amended theorem applied to the concrete series
`[1, 2, 3]` with window 2. -/
theorem c1_witness :
    (0 : ℤ) < 2 ∧ (2 : ℤ) ≤ (([(1 : ℚ), 2, 3].map FVal.num).length : ℤ) ∧
    ((∀ t : ℕ, (t : ℤ) < 2 - 1 →
      (calculate_rsi ([(1 : ℚ), 2, 3].map FVal.num) 2).getD t FVal.nan = FVal.nan) ∧
    (calculate_rsi ([(1 : ℚ), 2, 3].map FVal.num) 2).length = [(1 : ℚ), 2, 3].length ∧
    (calculate_sma ([(1 : ℚ), 2, 3].map FVal.num) 2).length = [(1 : ℚ), 2, 3].length ∧
    (∀ t : ℕ, t < [(1 : ℚ), 2, 3].length →
      ∃ q, (calculate_sma ([(1 : ℚ), 2, 3].map FVal.num) 2).getD t FVal.nan = FVal.num q)) :=
  ⟨by decide, by decide,
    c1_rsi_strict_first_entries_undefined_sma_defined [(1 : ℚ), 2, 3] 2 (by decide) (by decide)⟩

/-- NaN divided by anything is NaN. -/
theorem FVal.div_nan_left (x : FVal) : FVal.div FVal.nan x = FVal.nan := by
  cases x <;> rfl

/-- Anything divided by NaN is NaN. -/
theorem FVal.div_nan_right (x : FVal) : FVal.div x FVal.nan = FVal.nan := by
  cases x <;> rfl

/-- A positive number divided by zero is `+inf`. -/
theorem FVal.div_num_zero_of_pos (g : ℚ) (hg : 0 < g) :
    FVal.div (FVal.num g) (FVal.num 0) = FVal.inf := by
  simp [FVal.div, hg]

/-- Zero divided by zero is NaN. -/
theorem FVal.div_num_zero_zero : FVal.div (FVal.num 0) (FVal.num 0) = FVal.nan := by
  simp [FVal.div]

/-- Division of finite values with a nonzero divisor is exact. -/
theorem FVal.div_num_num (g l : ℚ) (hl : l ≠ 0) :
    FVal.div (FVal.num g) (FVal.num l) = FVal.num (g / l) := by
  simp [FVal.div, hl]

/-- Under a strictly increasing close series every loss entry is zero. -/
theorem lossQ_eq_zero_of_mono (qs : List ℚ)
    (hmono : ∀ i, i + 1 < qs.length → qs.getD i 0 < qs.getD (i + 1) 0) :
    ∀ x ∈ lossQ qs, x = 0 := by
  intro x hx
  obtain ⟨i, hi, rfl⟩ := List.mem_map.mp hx
  have hilen : i < qs.length := List.mem_range.mp hi
  by_cases h0 : i = 0
  · rw [if_pos h0]
  · have hstep : qs.getD (i - 1) 0 < qs.getD i 0 := by
      have := hmono (i - 1) (by omega)
      rwa [show i - 1 + 1 = i by omega] at this
    rw [if_neg h0]
    exact max_eq_right (by linarith)

/-- C2: for every close series of length at least `window` and positive
`window`, every defined RSI entry lies in [0, 100]; where the average
loss is zero and the average gain positive the RSI equals 100; and on a
strictly increasing close series every defined RSI entry equals 100. -/
theorem c2_rsi_bounded_and_saturates (qs : List ℚ) (w : ℤ) (hw : 0 < w)
    (hlen : w ≤ (qs.length : ℤ)) :
    (∀ t q, (calculate_rsi (qs.map FVal.num) w).getD t FVal.nan = FVal.num q →
      0 ≤ q ∧ q ≤ 100) ∧
    (∀ t g, t < qs.length →
      (rsi_avg_gain (qs.map FVal.num) w.toNat).getD t FVal.nan = FVal.num g → 0 < g →
      (rsi_avg_loss (qs.map FVal.num) w.toNat).getD t FVal.nan = FVal.num 0 →
      (calculate_rsi (qs.map FVal.num) w).getD t FVal.nan = FVal.num 100) ∧
    ((∀ i, i + 1 < qs.length → qs.getD i 0 < qs.getD (i + 1) 0) →
      ∀ t q, (calculate_rsi (qs.map FVal.num) w).getD t FVal.nan = FVal.num q →
        q = 100) := by
  have hw1 : 1 ≤ w.toNat := by omega
  have hrsilen := length_calculate_rsi qs w hw hlen
  refine ⟨?_, ?_, ?_⟩
  · intro t q hq
    by_cases ht : t < qs.length
    · rw [calculate_rsi_entry qs w hw hlen t ht] at hq
      rcases rsi_avg_gain_shape qs w.toNat t hw1 ht with hg | ⟨g, hg, hg0⟩ <;>
        rcases rsi_avg_loss_shape qs w.toNat t hw1 ht with hl | ⟨l, hl, hl0⟩
      · rw [hg, hl, FVal.div_nan_left, rsi_of_nan] at hq
        exact absurd hq (by simp)
      · rw [hg, hl, FVal.div_nan_left, rsi_of_nan] at hq
        exact absurd hq (by simp)
      · rw [hg, hl, FVal.div_nan_right, rsi_of_nan] at hq
        exact absurd hq (by simp)
      · rw [hg, hl] at hq
        by_cases hlz : l = 0
        · subst hlz
          rcases eq_or_lt_of_le hg0 with rfl | hgp
          · rw [FVal.div_num_zero_zero, rsi_of_nan] at hq
            exact absurd hq (by simp)
          · rw [FVal.div_num_zero_of_pos g hgp, rsi_of_inf] at hq
            obtain rfl : (100 : ℚ) = q := by simpa using hq
            norm_num
        · rw [FVal.div_num_num g l hlz] at hq
          have hr : 0 ≤ g / l := div_nonneg hg0 hl0
          rw [rsi_of_num (g / l) hr] at hq
          obtain rfl : 100 - 100 / (1 + g / l) = q := by simpa using hq
          have hd1 : (0 : ℚ) < 1 + g / l := by linarith
          have hub : 100 / (1 + g / l) ≤ 100 := div_le_self (by norm_num) (by linarith)
          have hlb : 0 < 100 / (1 + g / l) := div_pos (by norm_num) hd1
          constructor <;> linarith
    · have hout : (calculate_rsi (qs.map FVal.num) w).getD t FVal.nan = FVal.nan :=
        List.getD_eq_default _ _ (by omega)
      rw [hout] at hq
      exact absurd hq (by simp)
  · intro t g ht hg hgpos hl
    rw [calculate_rsi_entry qs w hw hlen t ht, hg, hl,
      FVal.div_num_zero_of_pos g hgpos]
    exact rsi_of_inf
  · intro hmono t q hq
    by_cases ht : t < qs.length
    · rw [calculate_rsi_entry qs w hw hlen t ht] at hq
      by_cases hwt : w.toNat ≤ t + 1
      · have hl : (rsi_avg_loss (qs.map FVal.num) w.toNat).getD t FVal.nan = FVal.num 0 := by
          rw [rsi_avg_loss_entry qs w.toNat t hw1 ht, if_pos hwt]
          have hz : (((lossQ qs).take (t + 1)).drop (t + 1 - w.toNat)).sum = 0 :=
            List.sum_eq_zero fun x hx =>
              lossQ_eq_zero_of_mono qs hmono x
                (List.mem_of_mem_take (List.mem_of_mem_drop hx))
          rw [hz, zero_div]
        rcases rsi_avg_gain_shape qs w.toNat t hw1 ht with hg | ⟨g, hg, hg0⟩
        · rw [hg, hl, FVal.div_nan_left, rsi_of_nan] at hq
          exact absurd hq (by simp)
        · rw [hg, hl] at hq
          rcases eq_or_lt_of_le hg0 with rfl | hgp
          · rw [FVal.div_num_zero_zero, rsi_of_nan] at hq
            exact absurd hq (by simp)
          · rw [FVal.div_num_zero_of_pos g hgp, rsi_of_inf] at hq
            simpa using hq.symm
      · rw [rsi_avg_gain_entry qs w.toNat t hw1 ht, if_neg hwt,
          rsi_avg_loss_entry qs w.toNat t hw1 ht, if_neg hwt,
          FVal.div_nan_left, rsi_of_nan] at hq
        exact absurd hq (by simp)
    · have hout : (calculate_rsi (qs.map FVal.num) w).getD t FVal.nan = FVal.nan :=
        List.getD_eq_default _ _ (by omega)
      rw [hout] at hq
      exact absurd hq (by simp)

/-- C2 witness: the bounds theorem applied to the concrete series
`[1, 2, 3]` with window 2. -/
theorem c2_witness :
    (0 : ℤ) < 2 ∧ (2 : ℤ) ≤ (([(1 : ℚ), 2, 3] : List ℚ).length : ℤ) ∧
    ((∀ t q, (calculate_rsi ([(1 : ℚ), 2, 3].map FVal.num) 2).getD t FVal.nan = FVal.num q →
      0 ≤ q ∧ q ≤ 100) ∧
    (∀ t g, t < [(1 : ℚ), 2, 3].length →
      (rsi_avg_gain ([(1 : ℚ), 2, 3].map FVal.num) (2 : ℤ).toNat).getD t FVal.nan = FVal.num g →
      0 < g →
      (rsi_avg_loss ([(1 : ℚ), 2, 3].map FVal.num) (2 : ℤ).toNat).getD t FVal.nan = FVal.num 0 →
      (calculate_rsi ([(1 : ℚ), 2, 3].map FVal.num) 2).getD t FVal.nan = FVal.num 100) ∧
    ((∀ i, i + 1 < [(1 : ℚ), 2, 3].length →
        [(1 : ℚ), 2, 3].getD i 0 < [(1 : ℚ), 2, 3].getD (i + 1) 0) →
      ∀ t q, (calculate_rsi ([(1 : ℚ), 2, 3].map FVal.num) 2).getD t FVal.nan = FVal.num q →
        q = 100)) :=
  ⟨by decide, by decide,
    c2_rsi_bounded_and_saturates [(1 : ℚ), 2, 3] 2 (by decide) (by decide)⟩

/-- C10 (amended): the where-clause substitutes the undefined first price
difference by a zero gain and a zero loss, so the gain and loss series
contain no undefined entries; consequently the averages exist from
position `window - 1` on, and there the RSI is defined exactly when the
average gain and average loss are not both zero.  (The claim as frozen
asserts unconditional definedness from `window - 1` on; the flat-series
counterexample has both averages zero, where `0/0` is NaN.) -/
theorem c10_gain_loss_total_rsi_defined_unless_both_zero (qs : List ℚ) (w : ℤ)
    (hw : 0 < w) (hlen : w ≤ (qs.length : ℤ)) :
    (∀ t, t < qs.length →
      ∃ p, (rsi_gain_series (qs.map FVal.num)).getD t FVal.nan = FVal.num p) ∧
    (∀ t, t < qs.length →
      ∃ p, (rsi_loss_series (qs.map FVal.num)).getD t FVal.nan = FVal.num p) ∧
    ((rsi_gain_series (qs.map FVal.num)).getD 0 FVal.nan = FVal.num 0 ∧
      (rsi_loss_series (qs.map FVal.num)).getD 0 FVal.nan = FVal.num 0) ∧
    (∀ t, w.toNat ≤ t + 1 → t < qs.length →
      ((calculate_rsi (qs.map FVal.num) w).getD t FVal.nan = FVal.nan ↔
        ((rsi_avg_gain (qs.map FVal.num) w.toNat).getD t FVal.nan = FVal.num 0 ∧
          (rsi_avg_loss (qs.map FVal.num) w.toNat).getD t FVal.nan = FVal.num 0))) := by
  have hw1 : 1 ≤ w.toNat := by omega
  have hq0 : 0 < qs.length := by omega
  refine ⟨?_, ?_, ⟨?_, ?_⟩, ?_⟩
  · intro t ht
    rw [rsi_gain_series_map_num, getD_map_num _ t (by rwa [length_gainQ])]
    exact ⟨_, rfl⟩
  · intro t ht
    rw [rsi_loss_series_map_num, getD_map_num _ t (by rwa [length_lossQ])]
    exact ⟨_, rfl⟩
  · rw [rsi_gain_series_map_num, getD_map_num _ 0 (by rwa [length_gainQ]), gainQ,
      getD_map_range _ _ _ hq0, if_pos rfl]
  · rw [rsi_loss_series_map_num, getD_map_num _ 0 (by rwa [length_lossQ]), lossQ,
      getD_map_range _ _ _ hq0, if_pos rfl]
  · intro t hwt ht
    obtain ⟨G, hg, hG0⟩ :
        ∃ g, (rsi_avg_gain (qs.map FVal.num) w.toNat).getD t FVal.nan = FVal.num g ∧
          0 ≤ g := by
      rw [rsi_avg_gain_entry qs w.toNat t hw1 ht, if_pos hwt]
      exact ⟨_, rfl, div_nonneg (slice_sum_nonneg _ (gainQ_nonneg qs) _ _) (by positivity)⟩
    obtain ⟨L, hl, hL0⟩ :
        ∃ l, (rsi_avg_loss (qs.map FVal.num) w.toNat).getD t FVal.nan = FVal.num l ∧
          0 ≤ l := by
      rw [rsi_avg_loss_entry qs w.toNat t hw1 ht, if_pos hwt]
      exact ⟨_, rfl, div_nonneg (slice_sum_nonneg _ (lossQ_nonneg qs) _ _) (by positivity)⟩
    rw [calculate_rsi_entry qs w hw hlen t ht, hg, hl]
    constructor
    · intro hnan
      by_cases hLz : L = 0
      · subst hLz
        rcases eq_or_lt_of_le hG0 with rfl | hGp
        · exact ⟨rfl, rfl⟩
        · rw [FVal.div_num_zero_of_pos G hGp, rsi_of_inf] at hnan
          exact absurd hnan (by simp)
      · rw [FVal.div_num_num G L hLz, rsi_of_num _ (div_nonneg hG0 hL0)] at hnan
        exact absurd hnan (by simp)
    · rintro ⟨hGz, hLz⟩
      obtain rfl : G = 0 := by simpa using hGz
      obtain rfl : L = 0 := by simpa using hLz
      rw [FVal.div_num_zero_zero, rsi_of_nan]

/-- C10, counterexample to the claim as frozen: on the flat close series
`[1, 1]` with `window = 2`, both the average gain and the average loss at
position `window - 1 = 1` are zero, `0/0` is NaN, and the RSI is
undefined there, although the series has length `window` and the claim
asserts definedness from position `window - 1` on. -/
theorem c10_counterexample_flat_series_rsi_undefined :
    (calculate_rsi (List.map FVal.num [(1 : ℚ), 1]) 2).getD 1 FVal.nan = FVal.nan := by
  norm_num [calculate_rsi, rsi_avg_gain, rsi_avg_loss, rolling_mean, rsi_gain_series,
    rsi_loss_series, seriesDiff, getF, FVal.lt, FVal.sub, FVal.add, FVal.div, FVal.neg,
    FVal.isNan, List.range_succ]

/-- C10 witness: the amended theorem applied to the concrete series
`[1, 2]` with window 2. -/
theorem c10_witness :
    (0 : ℤ) < 2 ∧ (2 : ℤ) ≤ (([(1 : ℚ), 2] : List ℚ).length : ℤ) ∧
    ((∀ t, t < [(1 : ℚ), 2].length →
      ∃ p, (rsi_gain_series ([(1 : ℚ), 2].map FVal.num)).getD t FVal.nan = FVal.num p) ∧
    (∀ t, t < [(1 : ℚ), 2].length →
      ∃ p, (rsi_loss_series ([(1 : ℚ), 2].map FVal.num)).getD t FVal.nan = FVal.num p) ∧
    ((rsi_gain_series ([(1 : ℚ), 2].map FVal.num)).getD 0 FVal.nan = FVal.num 0 ∧
      (rsi_loss_series ([(1 : ℚ), 2].map FVal.num)).getD 0 FVal.nan = FVal.num 0) ∧
    (∀ t, (2 : ℤ).toNat ≤ t + 1 → t < [(1 : ℚ), 2].length →
      ((calculate_rsi ([(1 : ℚ), 2].map FVal.num) 2).getD t FVal.nan = FVal.nan ↔
        ((rsi_avg_gain ([(1 : ℚ), 2].map FVal.num) (2 : ℤ).toNat).getD t FVal.nan =
            FVal.num 0 ∧
          (rsi_avg_loss ([(1 : ℚ), 2].map FVal.num) (2 : ℤ).toNat).getD t FVal.nan =
            FVal.num 0)))) :=
  ⟨by decide, by decide,
    c10_gain_loss_total_rsi_defined_unless_both_zero [(1 : ℚ), 2] 2 (by decide) (by decide)⟩

/-- C6: for every close series and positive window the SMA calculator
returns a series of the same length whose entry at position `t` is the
arithmetic mean of the trailing `min (t+1) window` observations (relaxed
policy, minimum one observation); on the spec's example series with
window 3 the first three outputs are 10, 10.5 and 11. -/
theorem c6_sma_relaxed_mean (qs : List ℚ) (w : ℤ) (hw : 0 < w) :
    ((calculate_sma (qs.map FVal.num) w).length = qs.length ∧
    (∀ t, t < qs.length →
      ((qs.take (t + 1)).drop (t + 1 - w.toNat)).length = min (t + 1) w.toNat) ∧
    (∀ t, t < qs.length →
      (calculate_sma (qs.map FVal.num) w).getD t FVal.nan =
        FVal.num (((qs.take (t + 1)).drop (t + 1 - w.toNat)).sum /
          (min (t + 1) w.toNat : ℚ)))) ∧
    ((calculate_sma (List.map FVal.num [(10 : ℚ), 11, 12, 11, 10, 9, 10, 11, 12, 13]) 3).getD 0
        FVal.nan = FVal.num 10 ∧
      (calculate_sma (List.map FVal.num [(10 : ℚ), 11, 12, 11, 10, 9, 10, 11, 12, 13]) 3).getD 1
        FVal.nan = FVal.num (21 / 2) ∧
      (calculate_sma (List.map FVal.num [(10 : ℚ), 11, 12, 11, 10, 9, 10, 11, 12, 13]) 3).getD 2
        FVal.nan = FVal.num 11) := by
  constructor
  · refine ⟨?_, ?_, ?_⟩
    · rw [calculate_sma, if_neg (by omega), length_rolling_mean]
      simp
    · intro t ht
      simp only [List.length_drop, List.length_take]
      omega
    · intro t ht
      rw [calculate_sma, if_neg (by omega)]
      rw [rolling_mean_map_num qs w.toNat 1 t le_rfl ht, if_pos (by omega)]
  · refine ⟨?_, ?_, ?_⟩ <;>
      norm_num [calculate_sma, rolling_mean, getF, FVal.add, FVal.div, FVal.isNan,
        List.range_succ]

/-- C6 witness: the SMA theorem applied to the spec's example series with
window 3. -/
theorem c6_witness :
    (0 : ℤ) < 3 ∧
    (((calculate_sma ([(10 : ℚ), 11, 12, 11, 10, 9, 10, 11, 12, 13].map FVal.num) 3).length =
        [(10 : ℚ), 11, 12, 11, 10, 9, 10, 11, 12, 13].length ∧
    (∀ t, t < [(10 : ℚ), 11, 12, 11, 10, 9, 10, 11, 12, 13].length →
      (([(10 : ℚ), 11, 12, 11, 10, 9, 10, 11, 12, 13].take (t + 1)).drop
          (t + 1 - (3 : ℤ).toNat)).length = min (t + 1) (3 : ℤ).toNat) ∧
    (∀ t, t < [(10 : ℚ), 11, 12, 11, 10, 9, 10, 11, 12, 13].length →
      (calculate_sma ([(10 : ℚ), 11, 12, 11, 10, 9, 10, 11, 12, 13].map FVal.num) 3).getD t
          FVal.nan =
        FVal.num ((([(10 : ℚ), 11, 12, 11, 10, 9, 10, 11, 12, 13].take (t + 1)).drop
            (t + 1 - (3 : ℤ).toNat)).sum / (min (t + 1) (3 : ℤ).toNat : ℚ)))) ∧
    ((calculate_sma (List.map FVal.num [(10 : ℚ), 11, 12, 11, 10, 9, 10, 11, 12, 13]) 3).getD 0
        FVal.nan = FVal.num 10 ∧
      (calculate_sma (List.map FVal.num [(10 : ℚ), 11, 12, 11, 10, 9, 10, 11, 12, 13]) 3).getD 1
        FVal.nan = FVal.num (21 / 2) ∧
      (calculate_sma (List.map FVal.num [(10 : ℚ), 11, 12, 11, 10, 9, 10, 11, 12, 13]) 3).getD 2
        FVal.nan = FVal.num 11)) :=
  ⟨by decide, c6_sma_relaxed_mean [(10 : ℚ), 11, 12, 11, 10, 9, 10, 11, 12, 13] 3 (by decide)⟩

/-- Length of the EWMA recurrence tail. -/
theorem length_ewmGo (a : ℚ) (prev : FVal) (l : List FVal) :
    (ewmGo a prev l).length = l.length := by
  induction l generalizing prev with
  | nil => rfl
  | cons x xs ih => simp [ewmGo, ih]

/-- Length of the EWMA. -/
theorem length_ewm (s : List FVal) (span : ℕ) : (ewm s span).length = s.length := by
  cases s with
  | nil => rfl
  | cons x xs => simp [ewm, length_ewmGo]

/-- One step of the EWMA recurrence tail: each output entry is
`α·x[t] + (1-α)·y[t-1]`, where `y[t-1]` is the previous output (or the
seed at the first position). -/
theorem ewmGo_getD (a : ℚ) (prev : FVal) (l : List FVal) (t : ℕ) (ht : t < l.length) :
    (ewmGo a prev l).getD t FVal.nan =
      FVal.add (FVal.mul (FVal.num a) (l.getD t FVal.nan))
        (FVal.mul (FVal.num (1 - a)) ((prev :: ewmGo a prev l).getD t FVal.nan)) := by
  induction l generalizing prev t with
  | nil => simp at ht
  | cons x xs ih =>
    cases t with
    | zero => simp [ewmGo]
    | succ t' =>
      have ht' : t' < xs.length := by simpa using ht
      simp only [ewmGo, List.getD_cons_succ]
      rw [ih _ t' ht']

/-- The EWMA of an embedded rational series is an embedded rational
series (every output entry is a finite number). -/
theorem ewmGo_map_num (a : ℚ) (p : ℚ) (xs : List ℚ) :
    ∃ ys : List ℚ, ewmGo a (FVal.num p) (xs.map FVal.num) = ys.map FVal.num := by
  induction xs generalizing p with
  | nil => exact ⟨[], rfl⟩
  | cons x xs ih =>
    obtain ⟨ys, hys⟩ := ih (a * x + (1 - a) * p)
    refine ⟨(a * x + (1 - a) * p) :: ys, ?_⟩
    simp only [List.map_cons, ewmGo]
    rw [show FVal.add (FVal.mul (FVal.num a) (FVal.num x))
        (FVal.mul (FVal.num (1 - a)) (FVal.num p)) =
        FVal.num (a * x + (1 - a) * p) from rfl]
    rw [hys]

/-- C8: the exponential moving average used by the MACD calculator
satisfies `y[0] = x[0]` and `y[t] = α·x[t] + (1-α)·y[t-1]` with
`α = 2/(span+1)`, has the length of its input, and is defined (finite) at
every position of an embedded rational input — no minimum-period
truncation. -/
theorem c8_ewm_recurrence (qs : List ℚ) (span : ℤ) (hspan : 0 < span) (hne : qs ≠ []) :
    (ewm (qs.map FVal.num) span.toNat).length = qs.length ∧
    (ewm (qs.map FVal.num) span.toNat).getD 0 FVal.nan = FVal.num (qs.getD 0 0) ∧
    (∀ t, t + 1 < qs.length →
      (ewm (qs.map FVal.num) span.toNat).getD (t + 1) FVal.nan =
        FVal.add
          (FVal.mul (FVal.num (2 / ((span.toNat : ℚ) + 1)))
            ((qs.map FVal.num).getD (t + 1) FVal.nan))
          (FVal.mul (FVal.num (1 - 2 / ((span.toNat : ℚ) + 1)))
            ((ewm (qs.map FVal.num) span.toNat).getD t FVal.nan))) ∧
    (∀ t, t < qs.length →
      ∃ y, (ewm (qs.map FVal.num) span.toNat).getD t FVal.nan = FVal.num y) := by
  obtain ⟨q0, qtl, rfl⟩ : ∃ q0 qtl, qs = q0 :: qtl := by
    cases qs with
    | nil => exact absurd rfl hne
    | cons a l => exact ⟨a, l, rfl⟩
  refine ⟨by rw [length_ewm]; simp, by simp [ewm], ?_, ?_⟩
  · intro t ht
    have ht' : t < (qtl.map FVal.num).length := by simpa using ht
    simp only [List.map_cons, ewm, List.getD_cons_succ]
    rw [ewmGo_getD _ _ _ t ht']
  · intro t ht
    obtain ⟨ys, hys⟩ := ewmGo_map_num (2 / ((span.toNat : ℚ) + 1)) q0 qtl
    have hyslen : ys.length = qtl.length := by
      have := length_ewmGo (2 / ((span.toNat : ℚ) + 1)) (FVal.num q0) (qtl.map FVal.num)
      rw [hys] at this
      simpa using this
    cases t with
    | zero => exact ⟨q0, by simp [ewm]⟩
    | succ t' =>
      have ht' : t' < ys.length := by
        simp only [List.length_cons] at ht
        omega
      simp only [List.map_cons, ewm, List.getD_cons_succ]
      rw [hys, getD_map_num ys t' ht']
      exact ⟨_, rfl⟩

/-- C8 witness: the EWMA theorem applied to the series `[1, 2]` with
span 2. -/
theorem c8_witness :
    (0 : ℤ) < 2 ∧ ([(1 : ℚ), 2] : List ℚ) ≠ [] ∧
    ((ewm ([(1 : ℚ), 2].map FVal.num) (2 : ℤ).toNat).length = [(1 : ℚ), 2].length ∧
    (ewm ([(1 : ℚ), 2].map FVal.num) (2 : ℤ).toNat).getD 0 FVal.nan =
      FVal.num ([(1 : ℚ), 2].getD 0 0) ∧
    (∀ t, t + 1 < [(1 : ℚ), 2].length →
      (ewm ([(1 : ℚ), 2].map FVal.num) (2 : ℤ).toNat).getD (t + 1) FVal.nan =
        FVal.add
          (FVal.mul (FVal.num (2 / (((2 : ℤ).toNat : ℚ) + 1)))
            (([(1 : ℚ), 2].map FVal.num).getD (t + 1) FVal.nan))
          (FVal.mul (FVal.num (1 - 2 / (((2 : ℤ).toNat : ℚ) + 1)))
            ((ewm ([(1 : ℚ), 2].map FVal.num) (2 : ℤ).toNat).getD t FVal.nan))) ∧
    (∀ t, t < [(1 : ℚ), 2].length →
      ∃ y, (ewm ([(1 : ℚ), 2].map FVal.num) (2 : ℤ).toNat).getD t FVal.nan = FVal.num y)) :=
  ⟨by decide, by decide, c8_ewm_recurrence [(1 : ℚ), 2] 2 (by decide) (by decide)⟩

/-- C7: for every close series and positive periods with `slow > fast`,
the MACD calculator's three columns are the MACD line
`ewma(close, fast) - ewma(close, slow)`, the signal line
`ewma(macd_line, signal)`, and the histogram, and at every position the
histogram equals the line minus the signal. -/
theorem c7_macd_histogram_identity (qs : List ℚ) (f s g : ℤ)
    (hf : 0 < f) (hs : 0 < s) (hg : 0 < g) (hfs : f < s) :
    calculate_macd (qs.map FVal.num) f s g =
      [(macdLineName f s g,
        List.zipWith FVal.sub (ewm (qs.map FVal.num) f.toNat) (ewm (qs.map FVal.num) s.toNat)),
       (macdSignalName f s g,
        ewm (List.zipWith FVal.sub (ewm (qs.map FVal.num) f.toNat)
          (ewm (qs.map FVal.num) s.toNat)) g.toNat),
       (macdHistName f s g,
        List.zipWith FVal.sub
          (List.zipWith FVal.sub (ewm (qs.map FVal.num) f.toNat)
            (ewm (qs.map FVal.num) s.toNat))
          (ewm (List.zipWith FVal.sub (ewm (qs.map FVal.num) f.toNat)
            (ewm (qs.map FVal.num) s.toNat)) g.toNat))] ∧
    (∀ t, t < qs.length →
      (List.zipWith FVal.sub
          (List.zipWith FVal.sub (ewm (qs.map FVal.num) f.toNat)
            (ewm (qs.map FVal.num) s.toNat))
          (ewm (List.zipWith FVal.sub (ewm (qs.map FVal.num) f.toNat)
            (ewm (qs.map FVal.num) s.toNat)) g.toNat)).getD t FVal.nan =
        FVal.sub
          ((List.zipWith FVal.sub (ewm (qs.map FVal.num) f.toNat)
            (ewm (qs.map FVal.num) s.toNat)).getD t FVal.nan)
          ((ewm (List.zipWith FVal.sub (ewm (qs.map FVal.num) f.toNat)
            (ewm (qs.map FVal.num) s.toNat)) g.toNat).getD t FVal.nan)) := by
  have hline : (List.zipWith FVal.sub (ewm (qs.map FVal.num) f.toNat)
      (ewm (qs.map FVal.num) s.toNat)).length = qs.length := by
    rw [List.length_zipWith, length_ewm, length_ewm, List.length_map, min_self]
  have hsig : (ewm (List.zipWith FVal.sub (ewm (qs.map FVal.num) f.toNat)
      (ewm (qs.map FVal.num) s.toNat)) g.toNat).length = qs.length := by
    rw [length_ewm, hline]
  constructor
  · rw [calculate_macd, if_neg (by omega)]
  · intro t ht
    exact getD_zipWith _ _ _ t (by omega) (by omega)

/-- C7 witness: the MACD identity applied to the series `[1, 2, 3]` with
periods fast 1, slow 2, signal 1. -/
theorem c7_witness :
    (0 : ℤ) < 1 ∧ (0 : ℤ) < 2 ∧ (1 : ℤ) < 2 ∧
    (calculate_macd ([(1 : ℚ), 2, 3].map FVal.num) 1 2 1 =
      [(macdLineName 1 2 1,
        List.zipWith FVal.sub (ewm ([(1 : ℚ), 2, 3].map FVal.num) (1 : ℤ).toNat)
          (ewm ([(1 : ℚ), 2, 3].map FVal.num) (2 : ℤ).toNat)),
       (macdSignalName 1 2 1,
        ewm (List.zipWith FVal.sub (ewm ([(1 : ℚ), 2, 3].map FVal.num) (1 : ℤ).toNat)
          (ewm ([(1 : ℚ), 2, 3].map FVal.num) (2 : ℤ).toNat)) (1 : ℤ).toNat),
       (macdHistName 1 2 1,
        List.zipWith FVal.sub
          (List.zipWith FVal.sub (ewm ([(1 : ℚ), 2, 3].map FVal.num) (1 : ℤ).toNat)
            (ewm ([(1 : ℚ), 2, 3].map FVal.num) (2 : ℤ).toNat))
          (ewm (List.zipWith FVal.sub (ewm ([(1 : ℚ), 2, 3].map FVal.num) (1 : ℤ).toNat)
            (ewm ([(1 : ℚ), 2, 3].map FVal.num) (2 : ℤ).toNat)) (1 : ℤ).toNat))] ∧
    (∀ t, t < [(1 : ℚ), 2, 3].length →
      (List.zipWith FVal.sub
          (List.zipWith FVal.sub (ewm ([(1 : ℚ), 2, 3].map FVal.num) (1 : ℤ).toNat)
            (ewm ([(1 : ℚ), 2, 3].map FVal.num) (2 : ℤ).toNat))
          (ewm (List.zipWith FVal.sub (ewm ([(1 : ℚ), 2, 3].map FVal.num) (1 : ℤ).toNat)
            (ewm ([(1 : ℚ), 2, 3].map FVal.num) (2 : ℤ).toNat)) (1 : ℤ).toNat)).getD t
          FVal.nan =
        FVal.sub
          ((List.zipWith FVal.sub (ewm ([(1 : ℚ), 2, 3].map FVal.num) (1 : ℤ).toNat)
            (ewm ([(1 : ℚ), 2, 3].map FVal.num) (2 : ℤ).toNat)).getD t FVal.nan)
          ((ewm (List.zipWith FVal.sub (ewm ([(1 : ℚ), 2, 3].map FVal.num) (1 : ℤ).toNat)
            (ewm ([(1 : ℚ), 2, 3].map FVal.num) (2 : ℤ).toNat)) (1 : ℤ).toNat).getD t
            FVal.nan))) :=
  ⟨by decide, by decide, by decide,
    c7_macd_histogram_identity [(1 : ℚ), 2, 3] 1 2 1 (by decide) (by decide) (by decide)
      (by decide)⟩

/-! ## Injectivity of the decimal column-name encoding -/

/-- Decimal value of a digit character. -/
def digitVal (c : Char) : ℕ := c.toNat - 48

/-- Decimal value of a digit string, most significant first. -/
def valFold (l : List Char) : ℕ := l.foldl (fun a c => 10 * a + digitVal c) 0

/-- The accumulator of `Nat.toDigitsCore` is appended on the right. -/
theorem toDigitsCore_append10 (fuel : ℕ) : ∀ (n : ℕ) (ds : List Char),
    Nat.toDigitsCore 10 fuel n ds = Nat.toDigitsCore 10 fuel n [] ++ ds := by
  induction fuel with
  | zero => intro n ds; rfl
  | succ f ih =>
    intro n ds
    simp only [Nat.toDigitsCore]
    by_cases h : n / 10 = 0
    · simp [h]
    · rw [if_neg h, if_neg h, ih (n / 10) (Nat.digitChar (n % 10) :: ds),
        ih (n / 10) [Nat.digitChar (n % 10)]]
      simp

/-- The digit character of a digit decodes back to the digit. -/
theorem digitVal_digitChar (k : ℕ) (hk : k < 10) : digitVal (Nat.digitChar k) = k := by
  interval_cases k <;> decide

/-- The decimal digits produced by `Nat.toDigitsCore` decode to the
encoded number. -/
theorem valFold_toDigitsCore (fuel : ℕ) : ∀ n : ℕ, n < fuel →
    valFold (Nat.toDigitsCore 10 fuel n []) = n := by
  induction fuel with
  | zero => intro n h; omega
  | succ f ih =>
    intro n h
    simp only [Nat.toDigitsCore]
    by_cases h0 : n / 10 = 0
    · rw [if_pos h0]
      show valFold [Nat.digitChar (n % 10)] = n
      rw [valFold]
      simp only [List.foldl]
      rw [digitVal_digitChar (n % 10) (by omega)]
      omega
    · rw [if_neg h0, toDigitsCore_append10]
      have hlt : n / 10 < f := by
        have := Nat.div_lt_self (by omega : 0 < n) (by norm_num : 1 < 10)
        omega
      have hrec := ih (n / 10) hlt
      rw [valFold, List.foldl_append]
      rw [show List.foldl (fun a c => 10 * a + digitVal c) 0 (Nat.toDigitsCore 10 f (n / 10) [])
          = valFold (Nat.toDigitsCore 10 f (n / 10) []) from rfl, hrec]
      simp only [List.foldl]
      rw [digitVal_digitChar (n % 10) (by omega)]
      omega

/-- The decimal representation of a natural number determines it. -/
theorem nat_repr_inj {m n : ℕ} (h : Nat.repr m = Nat.repr n) : m = n := by
  have hdig : Nat.toDigitsCore 10 (m + 1) m [] = Nat.toDigitsCore 10 (n + 1) n [] := by
    have hd := congrArg String.data h
    simp only [Nat.repr, Nat.toDigits, List.asString] at hd
    exact hd
  have h1 := valFold_toDigitsCore (m + 1) m (Nat.lt_succ_self m)
  have h2 := valFold_toDigitsCore (n + 1) n (Nat.lt_succ_self n)
  rw [hdig, h2] at h1
  exact h1.symm

/-- `str(int)` of a positive Python integer is the decimal representation
of its magnitude. -/
theorem int_toString_pos (w : ℤ) (hw : 0 < w) : toString w = Nat.repr w.toNat := by
  cases w with
  | ofNat n => rfl
  | negSucc n => exact absurd hw (not_lt.mpr (le_of_lt (Int.negSucc_lt_zero n)))

/-- Different strings have different character data. -/
theorem string_ne_of_data_ne {a b : String} (h : a.data ≠ b.data) : a ≠ b :=
  fun he => h (congrArg String.data he)

/-- Strings whose data starts with different characters differ. -/
theorem ne_of_data_head {a b : String} {x y : Char} {xs ys : List Char}
    (ha : a.data = x :: xs) (hb : b.data = y :: ys) (hxy : x ≠ y) : a ≠ b := by
  intro he
  rw [he, hb] at ha
  exact hxy (List.head_eq_of_cons_eq ha.symm)

/-- Character data of an SMA column name. -/
theorem data_smaColName (w : ℤ) :
    (smaColName w).data = 'S' :: 'M' :: 'A' :: '_' :: (toString w).data := by
  rw [smaColName, String.data_append, show "SMA_".data = ['S', 'M', 'A', '_'] from rfl]
  rfl

/-- Character data of the MACD line column name. -/
theorem data_macdLineName (f s g : ℤ) :
    (macdLineName f s g).data = 'M' :: 'A' :: 'C' :: 'D' :: '_' :: (macdParams f s g).data := by
  rw [macdLineName, String.data_append,
    show "MACD_".data = ['M', 'A', 'C', 'D', '_'] from rfl]
  rfl

/-- Character data of the MACD signal column name. -/
theorem data_macdSignalName (f s g : ℤ) :
    (macdSignalName f s g).data =
      'M' :: 'A' :: 'C' :: 'D' :: 's' :: '_' :: (macdParams f s g).data := by
  rw [macdSignalName, String.data_append,
    show "MACDs_".data = ['M', 'A', 'C', 'D', 's', '_'] from rfl]
  rfl

/-- Character data of the MACD histogram column name. -/
theorem data_macdHistName (f s g : ℤ) :
    (macdHistName f s g).data =
      'M' :: 'A' :: 'C' :: 'D' :: 'h' :: '_' :: (macdParams f s g).data := by
  rw [macdHistName, String.data_append,
    show "MACDh_".data = ['M', 'A', 'C', 'D', 'h', '_'] from rfl]
  rfl

/-- The SMA column name is an injective function of a positive window. -/
theorem smaColName_inj {w1 w2 : ℤ} (h1 : 0 < w1) (h2 : 0 < w2)
    (h : smaColName w1 = smaColName w2) : w1 = w2 := by
  have hd := congrArg String.data h
  rw [data_smaColName, data_smaColName] at hd
  simp only [List.cons.injEq, true_and] at hd
  have hts : toString w1 = toString w2 := String.ext hd
  rw [int_toString_pos w1 h1, int_toString_pos w2 h2] at hts
  have := nat_repr_inj hts
  omega

/-- An SMA column name never collides with the Open price column. -/
theorem sma_ne_Open (w : ℤ) : smaColName w ≠ "Open" :=
  ne_of_data_head (data_smaColName w) rfl (by decide)

/-- An SMA column name never collides with the High price column. -/
theorem sma_ne_High (w : ℤ) : smaColName w ≠ "High" :=
  ne_of_data_head (data_smaColName w) rfl (by decide)

/-- An SMA column name never collides with the Low price column. -/
theorem sma_ne_Low (w : ℤ) : smaColName w ≠ "Low" :=
  ne_of_data_head (data_smaColName w) rfl (by decide)

/-- An SMA column name never collides with the Close price column. -/
theorem sma_ne_Close (w : ℤ) : smaColName w ≠ "Close" :=
  ne_of_data_head (data_smaColName w) rfl (by decide)

/-- An SMA column name never collides with the Volume price column. -/
theorem sma_ne_Volume (w : ℤ) : smaColName w ≠ "Volume" :=
  ne_of_data_head (data_smaColName w) rfl (by decide)

/-- An SMA column name never collides with the RSI column. -/
theorem sma_ne_RSI (w : ℤ) : smaColName w ≠ "RSI" :=
  ne_of_data_head (data_smaColName w) rfl (by decide)

/-- The MACD line column name is fresh for the price, SMA and RSI
columns. -/
theorem macdLine_fresh (f s g w : ℤ) :
    macdLineName f s g ≠ "Open" ∧ macdLineName f s g ≠ "High" ∧
    macdLineName f s g ≠ "Low" ∧ macdLineName f s g ≠ "Close" ∧
    macdLineName f s g ≠ "Volume" ∧ macdLineName f s g ≠ "RSI" ∧
    macdLineName f s g ≠ smaColName w :=
  ⟨ne_of_data_head (data_macdLineName f s g) rfl (by decide),
   ne_of_data_head (data_macdLineName f s g) rfl (by decide),
   ne_of_data_head (data_macdLineName f s g) rfl (by decide),
   ne_of_data_head (data_macdLineName f s g) rfl (by decide),
   ne_of_data_head (data_macdLineName f s g) rfl (by decide),
   ne_of_data_head (data_macdLineName f s g) rfl (by decide),
   ne_of_data_head (data_macdLineName f s g) (data_smaColName w) (by decide)⟩

/-- The MACD signal column name is fresh for the price, SMA and RSI
columns. -/
theorem macdSignal_fresh (f s g w : ℤ) :
    macdSignalName f s g ≠ "Open" ∧ macdSignalName f s g ≠ "High" ∧
    macdSignalName f s g ≠ "Low" ∧ macdSignalName f s g ≠ "Close" ∧
    macdSignalName f s g ≠ "Volume" ∧ macdSignalName f s g ≠ "RSI" ∧
    macdSignalName f s g ≠ smaColName w :=
  ⟨ne_of_data_head (data_macdSignalName f s g) rfl (by decide),
   ne_of_data_head (data_macdSignalName f s g) rfl (by decide),
   ne_of_data_head (data_macdSignalName f s g) rfl (by decide),
   ne_of_data_head (data_macdSignalName f s g) rfl (by decide),
   ne_of_data_head (data_macdSignalName f s g) rfl (by decide),
   ne_of_data_head (data_macdSignalName f s g) rfl (by decide),
   ne_of_data_head (data_macdSignalName f s g) (data_smaColName w) (by decide)⟩

/-- The MACD histogram column name is fresh for the price, SMA and RSI
columns. -/
theorem macdHist_fresh (f s g w : ℤ) :
    macdHistName f s g ≠ "Open" ∧ macdHistName f s g ≠ "High" ∧
    macdHistName f s g ≠ "Low" ∧ macdHistName f s g ≠ "Close" ∧
    macdHistName f s g ≠ "Volume" ∧ macdHistName f s g ≠ "RSI" ∧
    macdHistName f s g ≠ smaColName w :=
  ⟨ne_of_data_head (data_macdHistName f s g) rfl (by decide),
   ne_of_data_head (data_macdHistName f s g) rfl (by decide),
   ne_of_data_head (data_macdHistName f s g) rfl (by decide),
   ne_of_data_head (data_macdHistName f s g) rfl (by decide),
   ne_of_data_head (data_macdHistName f s g) rfl (by decide),
   ne_of_data_head (data_macdHistName f s g) rfl (by decide),
   ne_of_data_head (data_macdHistName f s g) (data_smaColName w) (by decide)⟩

/-- The three MACD column names are pairwise distinct. -/
theorem macd_names_pairwise_ne (f s g f2 s2 g2 : ℤ) :
    macdLineName f s g ≠ macdSignalName f2 s2 g2 ∧
    macdLineName f s g ≠ macdHistName f2 s2 g2 ∧
    macdSignalName f s g ≠ macdHistName f2 s2 g2 := by
  refine ⟨string_ne_of_data_ne ?_, string_ne_of_data_ne ?_, string_ne_of_data_ne ?_⟩
  · rw [data_macdLineName, data_macdSignalName]
    simp
  · rw [data_macdLineName, data_macdHistName]
    simp
  · rw [data_macdSignalName, data_macdHistName]
    simp

/-- Looking up the column just stored finds the stored value. -/
theorem lookupCol_setCols_self (cs : List (String × List FVal)) (n : String) (v : List FVal) :
    lookupCol (setCols cs n v) n = some v := by
  induction cs with
  | nil => simp [setCols, lookupCol]
  | cons c cs ih =>
    by_cases h : c.1 = n
    · simp [setCols, lookupCol, h]
    · simp [setCols, lookupCol, h, ih]

/-- Storing a column leaves the lookup of any other name unchanged. -/
theorem lookupCol_setCols_ne (cs : List (String × List FVal)) (n m : String) (v : List FVal)
    (hmn : m ≠ n) : lookupCol (setCols cs n v) m = lookupCol cs m := by
  induction cs with
  | nil => simp [setCols, lookupCol, hmn, Ne.symm hmn]
  | cons c cs ih =>
    by_cases h : c.1 = n
    · subst h
      simp [setCols, lookupCol, Ne.symm hmn, hmn]
    · by_cases h2 : c.1 = m
      · simp [setCols, lookupCol, h, h2, hmn]
      · simp [setCols, lookupCol, h, h2, ih]

/-- Storing under a name that is not present appends the column at the
end. -/
theorem setCols_eq_append_of_none (cs : List (String × List FVal)) (n : String)
    (v : List FVal) (h : lookupCol cs n = none) : setCols cs n v = cs ++ [(n, v)] := by
  induction cs with
  | nil => rfl
  | cons c cs ih =>
    by_cases hc : c.1 = n
    · rw [lookupCol, if_pos hc] at h
      exact absurd h (by simp)
    · rw [lookupCol, if_neg hc] at h
      simp [setCols, hc, ih h]

/-- Lookup to the left of an append. -/
theorem lookupCol_append_of_some (cs ds : List (String × List FVal)) (m : String)
    (v : List FVal) (h : lookupCol cs m = some v) : lookupCol (cs ++ ds) m = some v := by
  induction cs with
  | nil => simp [lookupCol] at h
  | cons c cs ih =>
    by_cases hc : c.1 = m
    · rw [lookupCol, if_pos hc] at h
      simp [lookupCol, hc, h]
    · rw [lookupCol, if_neg hc] at h
      simp [lookupCol, hc, ih h]

/-- Lookup to the right of an append when the name is absent on the
left. -/
theorem lookupCol_append_of_none (cs ds : List (String × List FVal)) (m : String)
    (h : lookupCol cs m = none) : lookupCol (cs ++ ds) m = lookupCol ds m := by
  induction cs with
  | nil => simp [lookupCol]
  | cons c cs ih =>
    by_cases hc : c.1 = m
    · rw [lookupCol, if_pos hc] at h
      exact absurd h (by simp)
    · rw [lookupCol, if_neg hc] at h
      simp [lookupCol, hc, ih h]

/-- C9: with every indicator disabled the assembly returns the price
frame unchanged (no columns contributed at all); the SMA column name is
an injective function of the (positive) window, never collides with a
price column, and enabling the two SMA lines with distinct windows
appends exactly two distinct new columns. -/
theorem c9_disabled_no_columns_and_sma_names_injective
    (o hi lo c v : List FVal) (n : ℕ) (w1 w2 rw f sl sg : ℤ)
    (h1 : 0 < w1) (h2 : 0 < w2) (hne : w1 ≠ w2) :
    add_technical_indicators_to_df (mkPriceDF o hi lo c v n)
        false w1 false w2 false rw false f sl sg = mkPriceDF o hi lo c v n ∧
    smaColName w1 ≠ smaColName w2 ∧
    (smaColName w1 ≠ "Open" ∧ smaColName w1 ≠ "High" ∧ smaColName w1 ≠ "Low" ∧
      smaColName w1 ≠ "Close" ∧ smaColName w1 ≠ "Volume") ∧
    (add_technical_indicators_to_df (mkPriceDF o hi lo c v n)
        true w1 true w2 false rw false f sl sg).cols.map Prod.fst =
      ["Open", "High", "Low", "Close", "Volume", smaColName w1, smaColName w2] := by
  have hsma12 : smaColName w1 ≠ smaColName w2 := fun he => hne (smaColName_inj h1 h2 he)
  refine ⟨rfl, hsma12,
    ⟨sma_ne_Open w1, sma_ne_High w1, sma_ne_Low w1, sma_ne_Close w1, sma_ne_Volume w1⟩, ?_⟩
  simp only [add_technical_indicators_to_df, if_true, Bool.false_eq_true, if_false,
    DataFrame.setCol, DataFrame.getCol, mkPriceDF]
  rw [show lookupCol [("Open", o), ("High", hi), ("Low", lo), ("Close", c), ("Volume", v)]
      "Close" = some c by simp [lookupCol]]
  rw [lookupCol_setCols_ne _ _ _ _ (Ne.symm (sma_ne_Close w1))]
  rw [show lookupCol [("Open", o), ("High", hi), ("Low", lo), ("Close", c), ("Volume", v)]
      "Close" = some c by simp [lookupCol]]
  rw [setCols_eq_append_of_none
    [("Open", o), ("High", hi), ("Low", lo), ("Close", c), ("Volume", v)]
    (smaColName w1) _ (by
      simp [lookupCol, Ne.symm (sma_ne_Open w1), Ne.symm (sma_ne_High w1),
        Ne.symm (sma_ne_Low w1), Ne.symm (sma_ne_Close w1), Ne.symm (sma_ne_Volume w1)])]
  rw [setCols_eq_append_of_none _ (smaColName w2) _ (by
    rw [lookupCol_append_of_none _ _ _ (by
      simp [lookupCol, Ne.symm (sma_ne_Open w2), Ne.symm (sma_ne_High w2),
        Ne.symm (sma_ne_Low w2), Ne.symm (sma_ne_Close w2), Ne.symm (sma_ne_Volume w2)])]
    simp [lookupCol, hsma12])]
  simp

/-- C9 witness: the naming theorem applied to two empty-column frames
with the default UI windows 20 and 60. -/
theorem c9_witness :
    (0 : ℤ) < 20 ∧ (0 : ℤ) < 60 ∧ (20 : ℤ) ≠ 60 ∧
    (add_technical_indicators_to_df (mkPriceDF [] [] [] [] [] 0)
        false 20 false 60 false 14 false 12 26 9 = mkPriceDF [] [] [] [] [] 0 ∧
    smaColName 20 ≠ smaColName 60 ∧
    (smaColName 20 ≠ "Open" ∧ smaColName 20 ≠ "High" ∧ smaColName 20 ≠ "Low" ∧
      smaColName 20 ≠ "Close" ∧ smaColName 20 ≠ "Volume") ∧
    (add_technical_indicators_to_df (mkPriceDF [] [] [] [] [] 0)
        true 20 true 60 false 14 false 12 26 9).cols.map Prod.fst =
      ["Open", "High", "Low", "Close", "Volume", smaColName 20, smaColName 60]) :=
  ⟨by decide, by decide, by decide,
    c9_disabled_no_columns_and_sma_names_injective [] [] [] [] [] 0 20 60 14 12 26 9
      (by decide) (by decide) (by decide)⟩

/-- Aligning the empty series (a failed calculator's result) fills the
column with NaN. -/
theorem alignCol_nil (n : ℕ) : alignCol n [] = List.replicate n FVal.nan := by
  by_cases h : n = 0
  · subst h
    rfl
  · rw [alignCol, if_neg (by simpa using Ne.symm h)]

/-- Aligning a series of the frame's own length keeps it. -/
theorem alignCol_of_length (n : ℕ) (s : List FVal) (h : s.length = n) : alignCol n s = s :=
  if_pos h

/-- The SMA output has the length of its input when the window is
positive. -/
theorem length_calculate_sma (s : List FVal) (w : ℤ) (hw : 0 < w) :
    (calculate_sma s w).length = s.length := by
  rw [calculate_sma, if_neg (by omega), length_rolling_mean]

/-- C3: configuration errors (non-positive window or period, MACD with
`slow <= fast`) and insufficient data (series shorter than the RSI
window) make the affected calculator return an empty result, and in the
assembly the failed indicators surface only as all-NaN columns while the
other enabled indicators' columns are still computed and appended (here:
both SMA columns are computed while RSI lacks data and the MACD
configuration violates `slow > fast`). -/
theorem c3_calculator_errors_isolated (o hi lo c v : List FVal) (n : ℕ)
    (w1 w2 rw f sl sg : ℤ)
    (h1 : 0 < w1) (h2 : 0 < w2) (hne : w1 ≠ w2) (hc : c.length = n)
    (hrw : (c.length : ℤ) < rw) (hbad : sl ≤ f) :
    (∀ (s : List FVal) (w : ℤ), w ≤ 0 ∨ (s.length : ℤ) < w → calculate_rsi s w = []) ∧
    (∀ (s : List FVal) (w : ℤ), w ≤ 0 → calculate_sma s w = []) ∧
    (∀ (s : List FVal) (fp sp gp : ℤ), fp ≤ 0 ∨ sp ≤ 0 ∨ gp ≤ 0 ∨ sp ≤ fp →
      calculate_macd s fp sp gp =
        [(macdLineName fp sp gp, []), (macdSignalName fp sp gp, []),
         (macdHistName fp sp gp, [])]) ∧
    (add_technical_indicators_to_df (mkPriceDF o hi lo c v n)
        true w1 true w2 true rw true f sl sg).cols =
      [("Open", o), ("High", hi), ("Low", lo), ("Close", c), ("Volume", v),
       (smaColName w1, calculate_sma c w1), (smaColName w2, calculate_sma c w2),
       ("RSI", List.replicate n FVal.nan),
       (macdLineName f sl sg, List.replicate n FVal.nan),
       (macdSignalName f sl sg, List.replicate n FVal.nan),
       (macdHistName f sl sg, List.replicate n FVal.nan)] := by
  have hsma12 : smaColName w1 ≠ smaColName w2 := fun he => hne (smaColName_inj h1 h2 he)
  have hrsi : calculate_rsi c rw = [] := by
    rw [calculate_rsi, if_pos (Or.inr hrw)]
  have hmacd : calculate_macd c f sl sg =
      [(macdLineName f sl sg, []), (macdSignalName f sl sg, []),
       (macdHistName f sl sg, [])] := by
    rw [calculate_macd, if_pos (by omega)]
  refine ⟨fun s w h => by rw [calculate_rsi, if_pos h],
    fun s w h => by rw [calculate_sma, if_pos h],
    fun s fp sp gp h => by rw [calculate_macd, if_pos h], ?_⟩
  simp only [add_technical_indicators_to_df, if_true, DataFrame.setCol, DataFrame.getCol,
    DataFrame.join, mkPriceDF]
  rw [show lookupCol [("Open", o), ("High", hi), ("Low", lo), ("Close", c), ("Volume", v)]
      "Close" = some c by simp [lookupCol]]
  simp only [Option.getD_some]
  rw [lookupCol_setCols_ne _ _ _ _ (Ne.symm (sma_ne_Close w1))]
  rw [show lookupCol [("Open", o), ("High", hi), ("Low", lo), ("Close", c), ("Volume", v)]
      "Close" = some c by simp [lookupCol]]
  simp only [Option.getD_some]
  rw [lookupCol_setCols_ne _ _ _ _ (Ne.symm (sma_ne_Close w2)),
    lookupCol_setCols_ne _ _ _ _ (Ne.symm (sma_ne_Close w1))]
  rw [show lookupCol [("Open", o), ("High", hi), ("Low", lo), ("Close", c), ("Volume", v)]
      "Close" = some c by simp [lookupCol]]
  simp only [Option.getD_some]
  rw [lookupCol_setCols_ne _ _ _ _ (show ("Close" : String) ≠ "RSI" by decide),
    lookupCol_setCols_ne _ _ _ _ (Ne.symm (sma_ne_Close w2)),
    lookupCol_setCols_ne _ _ _ _ (Ne.symm (sma_ne_Close w1))]
  rw [show lookupCol [("Open", o), ("High", hi), ("Low", lo), ("Close", c), ("Volume", v)]
      "Close" = some c by simp [lookupCol]]
  simp only [Option.getD_some]
  rw [hrsi, hmacd]
  rw [alignCol_of_length n (calculate_sma c w1) (by rw [length_calculate_sma c w1 h1, hc]),
    alignCol_of_length n (calculate_sma c w2) (by rw [length_calculate_sma c w2 h2, hc])]
  rw [setCols_eq_append_of_none
    [("Open", o), ("High", hi), ("Low", lo), ("Close", c), ("Volume", v)]
    (smaColName w1) _ (by
      simp [lookupCol, Ne.symm (sma_ne_Open w1), Ne.symm (sma_ne_High w1),
        Ne.symm (sma_ne_Low w1), Ne.symm (sma_ne_Close w1), Ne.symm (sma_ne_Volume w1)])]
  rw [setCols_eq_append_of_none _ (smaColName w2) _ (by
    rw [lookupCol_append_of_none _ _ _ (by
      simp [lookupCol, Ne.symm (sma_ne_Open w2), Ne.symm (sma_ne_High w2),
        Ne.symm (sma_ne_Low w2), Ne.symm (sma_ne_Close w2), Ne.symm (sma_ne_Volume w2)])]
    simp [lookupCol, hsma12])]
  rw [setCols_eq_append_of_none _ "RSI" _ (by
    rw [lookupCol_append_of_none _ _ _ (by
      rw [lookupCol_append_of_none _ _ _ (by simp [lookupCol])]
      simp [lookupCol, sma_ne_RSI w1])]
    simp [lookupCol, sma_ne_RSI w2])]
  simp [alignCol_nil]

/-- C3 witness: the isolation theorem applied to an empty price frame
with SMA windows 20 and 60, an RSI window larger than the data, and the
spec's invalid MACD configuration `fast = 30, slow = 12`. -/
theorem c3_witness :
    (0 : ℤ) < 20 ∧ (0 : ℤ) < 60 ∧ (20 : ℤ) ≠ 60 ∧
    (([] : List FVal).length = 0) ∧ ((([] : List FVal).length : ℤ) < 14) ∧ (12 : ℤ) ≤ 30 ∧
    ((∀ (s : List FVal) (w : ℤ), w ≤ 0 ∨ (s.length : ℤ) < w → calculate_rsi s w = []) ∧
    (∀ (s : List FVal) (w : ℤ), w ≤ 0 → calculate_sma s w = []) ∧
    (∀ (s : List FVal) (fp sp gp : ℤ), fp ≤ 0 ∨ sp ≤ 0 ∨ gp ≤ 0 ∨ sp ≤ fp →
      calculate_macd s fp sp gp =
        [(macdLineName fp sp gp, []), (macdSignalName fp sp gp, []),
         (macdHistName fp sp gp, [])]) ∧
    (add_technical_indicators_to_df (mkPriceDF [] [] [] [] [] 0)
        true 20 true 60 true 14 true 30 12 9).cols =
      [("Open", []), ("High", []), ("Low", []), ("Close", []), ("Volume", []),
       (smaColName 20, calculate_sma [] 20), (smaColName 60, calculate_sma [] 60),
       ("RSI", List.replicate 0 FVal.nan),
       (macdLineName 30 12 9, List.replicate 0 FVal.nan),
       (macdSignalName 30 12 9, List.replicate 0 FVal.nan),
       (macdHistName 30 12 9, List.replicate 0 FVal.nan)]) :=
  ⟨by decide, by decide, by decide, by decide, by decide, by decide,
    c3_calculator_errors_isolated [] [] [] [] [] 0 20 60 14 30 12 9
      (by decide) (by decide) (by decide) (by decide) (by decide) (by decide)⟩

/-- Reading the freshly appended object at the end of the heap. -/
theorem heapGet_last (h : List DataFrame) (x : DataFrame) :
    heapGet (h ++ [x]) h.length = x := by
  induction h with
  | nil => rfl
  | cons a h _ => simp [heapGet, List.getD]

/-- Appending an object leaves the existing references unchanged. -/
theorem heapGet_append_lt (h : List DataFrame) (x : DataFrame) (r : ℕ) (hr : r < h.length) :
    heapGet (h ++ [x]) r = heapGet h r := by
  rw [heapGet, heapGet, List.getD_append _ _ _ _ hr]

/-- Updating the freshly appended object touches only it. -/
theorem set_append_last (h : List DataFrame) (x y : DataFrame) :
    (h ++ [x]).set h.length y = h ++ [y] := by
  induction h with
  | nil => rfl
  | cons a h ih => simp [List.set, ih]

/-- Column store on the freshly appended object. -/
theorem heapSetCol_last (h : List DataFrame) (x : DataFrame) (name : String) (v : List FVal) :
    heapSetCol (h ++ [x]) h.length name v = h ++ [x.setCol name v] := by
  rw [heapSetCol, heapGet_last, set_append_last]

/-- Join on the freshly appended object. -/
theorem heapJoin_last (h : List DataFrame) (x : DataFrame) (cols : List (String × List FVal)) :
    heapJoin (h ++ [x]) h.length cols = h ++ [x.join cols] := by
  rw [heapJoin, heapGet_last, set_append_last]

/-- The heap-level assembly allocates exactly one new object — the copy —
runs the pure assembly on it, and returns its reference. -/
theorem add_heap_spec (h : List DataFrame) (df : ℕ)
    (ssv : Bool) (sv : ℤ) (slv : Bool) (lv : ℤ) (rv : Bool) (rwv : ℤ)
    (mv : Bool) (mf ms mg : ℤ) :
    add_technical_indicators_heap h df ssv sv slv lv rv rwv mv mf ms mg =
      (h ++ [add_technical_indicators_to_df (heapGet h df) ssv sv slv lv rv rwv mv mf ms mg],
        h.length) := by
  cases ssv <;> cases slv <;> cases rv <;> cases mv <;>
    simp only [add_technical_indicators_heap, add_technical_indicators_to_df, heapCopy,
      heapGet_last, heapSetCol_last, heapJoin_last, if_true, if_false, Bool.false_eq_true]

/-- C4: the assembly never mutates the caller's input frame — after the
call the input reference holds the same object value as before — and all
derived columns are appended only to the returned copy, which equals the
pure assembly of the input value. -/
theorem c4_assembly_does_not_mutate_input (h : List DataFrame) (df : ℕ)
    (hdf : df < h.length)
    (ssv : Bool) (sv : ℤ) (slv : Bool) (lv : ℤ) (rv : Bool) (rwv : ℤ)
    (mv : Bool) (mf ms mg : ℤ) :
    heapGet (add_technical_indicators_heap h df ssv sv slv lv rv rwv mv mf ms mg).1 df =
      heapGet h df ∧
    heapGet (add_technical_indicators_heap h df ssv sv slv lv rv rwv mv mf ms mg).1
        (add_technical_indicators_heap h df ssv sv slv lv rv rwv mv mf ms mg).2 =
      add_technical_indicators_to_df (heapGet h df) ssv sv slv lv rv rwv mv mf ms mg := by
  rw [add_heap_spec]
  exact ⟨heapGet_append_lt h _ df hdf, heapGet_last h _⟩

/-- C5: running the assembly twice in sequence on the same input
reference and the same configuration yields identical outputs — the
result is a deterministic function of the input frame value and the
configuration. -/
theorem c5_assembly_idempotent (h : List DataFrame) (df : ℕ) (hdf : df < h.length)
    (ssv : Bool) (sv : ℤ) (slv : Bool) (lv : ℤ) (rv : Bool) (rwv : ℤ)
    (mv : Bool) (mf ms mg : ℤ) :
    heapGet
        (add_technical_indicators_heap
          (add_technical_indicators_heap h df ssv sv slv lv rv rwv mv mf ms mg).1
          df ssv sv slv lv rv rwv mv mf ms mg).1
        (add_technical_indicators_heap
          (add_technical_indicators_heap h df ssv sv slv lv rv rwv mv mf ms mg).1
          df ssv sv slv lv rv rwv mv mf ms mg).2 =
      heapGet (add_technical_indicators_heap h df ssv sv slv lv rv rwv mv mf ms mg).1
        (add_technical_indicators_heap h df ssv sv slv lv rv rwv mv mf ms mg).2 := by
  rw [add_heap_spec h df ssv sv slv lv rv rwv mv mf ms mg]
  dsimp only
  rw [add_heap_spec, heapGet_last, heapGet_last, heapGet_append_lt h _ df hdf]

/-- C4 witness: non-mutation applied to a one-object heap holding an
empty price frame, with every indicator enabled at the default UI
parameters. -/
theorem c4_witness :
    0 < [mkPriceDF [] [] [] [] [] 0].length ∧
    (heapGet (add_technical_indicators_heap [mkPriceDF [] [] [] [] [] 0] 0
        true 20 true 60 true 14 true 12 26 9).1 0 =
      heapGet [mkPriceDF [] [] [] [] [] 0] 0 ∧
    heapGet (add_technical_indicators_heap [mkPriceDF [] [] [] [] [] 0] 0
        true 20 true 60 true 14 true 12 26 9).1
        (add_technical_indicators_heap [mkPriceDF [] [] [] [] [] 0] 0
          true 20 true 60 true 14 true 12 26 9).2 =
      add_technical_indicators_to_df (heapGet [mkPriceDF [] [] [] [] [] 0] 0)
        true 20 true 60 true 14 true 12 26 9) :=
  ⟨by decide,
    c4_assembly_does_not_mutate_input [mkPriceDF [] [] [] [] [] 0] 0 (by decide)
      true 20 true 60 true 14 true 12 26 9⟩

/-- C5 witness: idempotence applied to a one-object heap holding an
empty price frame, with every indicator enabled at the default UI
parameters. -/
theorem c5_witness :
    0 < [mkPriceDF [] [] [] [] [] 0].length ∧
    heapGet
        (add_technical_indicators_heap
          (add_technical_indicators_heap [mkPriceDF [] [] [] [] [] 0] 0
            true 20 true 60 true 14 true 12 26 9).1
          0 true 20 true 60 true 14 true 12 26 9).1
        (add_technical_indicators_heap
          (add_technical_indicators_heap [mkPriceDF [] [] [] [] [] 0] 0
            true 20 true 60 true 14 true 12 26 9).1
          0 true 20 true 60 true 14 true 12 26 9).2 =
      heapGet (add_technical_indicators_heap [mkPriceDF [] [] [] [] [] 0] 0
          true 20 true 60 true 14 true 12 26 9).1
        (add_technical_indicators_heap [mkPriceDF [] [] [] [] [] 0] 0
          true 20 true 60 true 14 true 12 26 9).2 :=
  ⟨by decide,
    c5_assembly_idempotent [mkPriceDF [] [] [] [] [] 0] 0 (by decide)
      true 20 true 60 true 14 true 12 26 9⟩
